import Mathlib

/-!
# transmission-check: a shallow embedding of `src/main.c`

The program audits one Transmission "resume" record and optionally repairs it.
The C functions of `main.c` are embedded as pure functions over an explicit
program state (the record `top` and the two global counters).  `exit(EXIT_FAILURE)`
and undefined behaviour are explicit outcomes.

Conventions of the embedding:

* a C string is the list of its characters up to (excluding) the terminating NUL;
* the libtransmission dictionary `tr_variant` is seen through its typed accessors:
  a field is `none` when `tr_variantDictFindX` returns false, and `some v` when it
  returns true with value `v`; `tr_variantDictAddX` makes the field `some v`;
* the operating system (`stat`, `ftw`, `localtime`) is a parameter `Env`;
* memory allocation never fails, and standard output is not modelled.
-/

namespace TransmissionCheck

/-! ## Data model -/

/-- The characters of a NUL-terminated C string, terminator excluded. -/
abbrev CStr := List Char

/-- The raw bytes of a `tr_variant` raw field. -/
abbrev Bytes := List (Fin 256)

/-- The resume record `top`, as seen through `tr_variantDictFindStr`,
`tr_variantDictFindInt` and `tr_variantDictFindRaw`.  `others` stands for every key
that the repair code never reads or writes. -/
structure tr_variant where
  destination : Option CStr
  name : Option CStr
  added_date : Option Int
  done_date : Option Int
  peers2 : Option Bytes
  peers2_6 : Option Bytes
  others : List (CStr × Bytes)
  deriving DecidableEq, Repr

/-- String keys written by the program. -/
inductive StrKey where
  | TR_KEY_destination
  | TR_KEY_name
  deriving DecidableEq, Repr

/-- Integer keys written by the program. -/
inductive IntKey where
  | TR_KEY_added_date
  | TR_KEY_done_date
  deriving DecidableEq, Repr

/-- Raw keys written by the program. -/
inductive RawKey where
  | TR_KEY_peers2
  | TR_KEY_peers2_6
  deriving DecidableEq, Repr

/-- The call `tr_variantDictAddStr (top, key, val)`. -/
def tr_variantDictAddStr (top : tr_variant) (key : StrKey) (val : CStr) : tr_variant :=
  match key with
  | StrKey.TR_KEY_destination => { top with destination := some val }
  | StrKey.TR_KEY_name => { top with name := some val }

/-- The call `tr_variantDictAddInt (top, key, val)`. -/
def tr_variantDictAddInt (top : tr_variant) (key : IntKey) (val : Int) : tr_variant :=
  match key with
  | IntKey.TR_KEY_added_date => { top with added_date := some val }
  | IntKey.TR_KEY_done_date => { top with done_date := some val }

/-- The call `tr_variantDictFindInt (top, key, &value)`: `none` when it returns
false. -/
def tr_variantDictFindInt (top : tr_variant) (key : IntKey) : Option Int :=
  match key with
  | IntKey.TR_KEY_added_date => top.added_date
  | IntKey.TR_KEY_done_date => top.done_date

/-- The call `tr_variantDictFindRaw (top, key, &raw, &len)`: `none` when it returns
false. -/
def tr_variantDictFindRaw (top : tr_variant) (key : RawKey) : Option Bytes :=
  match key with
  | RawKey.TR_KEY_peers2 => top.peers2
  | RawKey.TR_KEY_peers2_6 => top.peers2_6

/-- The call `tr_variantDictFindStr (top, key, &str, &len)`: `none` when it returns
false. -/
def tr_variantDictFindStr (top : tr_variant) (key : StrKey) : Option CStr :=
  match key with
  | StrKey.TR_KEY_destination => top.destination
  | StrKey.TR_KEY_name => top.name

/-- The call `tr_variantDictAddRaw (top, key, src, len)`. -/
def tr_variantDictAddRaw (top : tr_variant) (key : RawKey) (val : Bytes) : tr_variant :=
  match key with
  | RawKey.TR_KEY_peers2 => { top with peers2 := some val }
  | RawKey.TR_KEY_peers2_6 => { top with peers2_6 := some val }

/-- The mutable program state: the loaded record and the two global statics
`total_size` (a `uint64_t`) and `nb_repaired_inconsistencies` (an `int` that starts
at 0 and is only ever incremented, at most three times per process). -/
structure State where
  top : tr_variant
  total_size : Nat
  nb_repaired_inconsistencies : Nat
  deriving DecidableEq, Repr

/-- How a C function of the program ends: it returns a value, it calls
`exit (EXIT_FAILURE)` (the state at that moment is kept), or it runs into undefined
behaviour (an uninitialised or NULL pointer is dereferenced). -/
inductive Outcome (α : Type) where
  | returned (a : α)
  | exit_failure (st : State)
  | undefined
  deriving DecidableEq, Repr

/-- Sequencing of two steps: the second runs only when the first returned. -/
def Outcome.bind {α β : Type} (x : Outcome α) (f : α → Outcome β) : Outcome β :=
  match x with
  | Outcome.returned a => f a
  | Outcome.exit_failure st => Outcome.exit_failure st
  | Outcome.undefined => Outcome.undefined

/-! ## The operating system -/

/-- The file type bits `st_mode & S_IFMT`. -/
inductive FileType where
  | S_IFDIR
  | S_IFLNK
  | S_IFREG
  | other
  deriving DecidableEq, Repr

/-- The fields of `struct stat` the program reads. -/
structure Stat where
  st_mode : FileType
  st_size : Int
  st_mtime : Int
  deriving DecidableEq, Repr

/-- The result of `stat ()`: success, failure with `errno == ENOENT`, or failure
with any other `errno`. -/
inductive StatResult where
  | ok (sb : Stat)
  | ENOENT
  | error
  deriving DecidableEq, Repr

/-- The field of `struct tm` the program reads. -/
structure Tm where
  tm_year : Int
  deriving DecidableEq, Repr

/-- The environment of one run.  `ftw_walk path` gives the `stat` buffers that
`ftw` hands to its callback, in order, and the value `ftw` returns when the
callback always returns 0 (0, or -1 on error).  `localtime t` is `none` when the
C function returns NULL (the year does not fit in an `int`). -/
structure Env where
  stat : CStr → StatResult
  ftw_walk : CStr → List Stat × Int
  localtime : Int → Option Tm

/-- The call `stat (path, &info)`.  A NULL path makes the system call fail with
`EFAULT`, an error other than `ENOENT`. -/
def stat (env : Env) (path : Option CStr) : StatResult :=
  match path with
  | none => StatResult.error
  | some p => env.stat p

/-- The civil (proleptic Gregorian) year of the day that lies `days` days after
1970-01-01. -/
def civil_year (days : Int) : Int :=
  let z := days + 719468
  let era := z / 146097
  let doe := z - era * 146097
  let yoe := (doe - doe / 1460 + doe / 36524 - doe / 146096) / 365
  let doy := doe - (365 * yoe + yoe / 4 - yoe / 100)
  let mp := (5 * doy + 2) / 153
  let m := if mp < 10 then mp + 3 else mp - 9
  if m ≤ 2 then yoe + era * 400 + 1 else yoe + era * 400

/-- The function `localtime` of the C library in a time zone whose offset from UTC
is the constant `gmtoff` seconds (east positive): `tm_year` is the local year minus
1900, and the result is NULL when that does not fit in a 32-bit `int`. -/
def localtime_fixed (gmtoff : Int) (t : Int) : Option Tm :=
  let tm_year := civil_year ((t + gmtoff) / 86400) - 1900
  if -(2 : Int) ^ 31 ≤ tm_year ∧ tm_year < (2 : Int) ^ 31 then some { tm_year := tm_year }
  else none

/-! ## String functions of the C library -/

/-- The call `strstr (haystack, needle)`: the offset of the first occurrence of
`needle` in `haystack`, or `none` for NULL. -/
def strstr : CStr → CStr → Option Nat
  | [], needle => if needle = [] then some 0 else none
  | c :: hay, needle =>
    if needle.isPrefixOf (c :: hay) then some 0
    else (strstr hay needle).map (fun i => i + 1)

/-- The literal tail `\.resume` of `regex_suffix`. -/
def dot_resume : CStr := ['.', 'r', 'e', 's', 'u', 'm', 'e']

/-- Whether `regex_suffix`, that is `\.([[:lower:][:digit:]]{16})\.resume$`, matches
starting at the first character of `s`: a dot, sixteen characters of the bracket
class, the text `.resume`, and then the end of the string.  The program never calls
`setlocale`, so `[:lower:]` is `a` to `z` (`Char.isLower`) and `[:digit:]` is `0` to
`9` (`Char.isDigit`). -/
def regex_suffix_at (s : CStr) : Bool :=
  match s with
  | [] => false
  | c :: rest =>
    (c == '.') && decide (rest.length = 23)
      && (rest.take 16).all (fun x => x.isLower || x.isDigit)
      && (rest.drop 16 == dot_resume)

/-- The call `regexec (&preg, resume_filename, nmatch, pmatch, 0)` for the compiled
`regex_suffix`: `some start` is a match (return value 0) with
`pmatch[0].rm_so = start`, the leftmost position where the expression matches;
`none` is `REG_NOMATCH`. -/
def regexec : CStr → Option Nat
  | [] => none
  | c :: s =>
    if regex_suffix_at (c :: s) then some 0
    else (regexec s).map (fun i => i + 1)

/-! ## The functions of `main.c` -/

/-- `is_file_or_dir_exists`: 0 when the path does not exist or has an unsupported
type, 1, 2 or 3 for a directory, a symlink or a regular file.  Any `stat` error other
than `ENOENT` ends the process. -/
def is_file_or_dir_exists (env : Env) (st : State) (path : Option CStr) : Outcome Nat :=
  match stat env path with
  | StatResult.ENOENT => Outcome.returned 0
  | StatResult.error => Outcome.exit_failure st
  | StatResult.ok info =>
    match info.st_mode with
    | FileType.S_IFDIR => Outcome.returned 1
    | FileType.S_IFLNK => Outcome.returned 2
    | FileType.S_IFREG => Outcome.returned 3
    | FileType.other => Outcome.returned 0

/-- `sum_sizes`, the callback of `ftw`: adds `sb->st_size` to the `uint64_t`
global `total_size` and returns 0. -/
def sum_sizes (st : State) (sb : Stat) : State × Int :=
  ({ st with total_size := (((st.total_size : Int) + sb.st_size) % (2 : Int) ^ 64).toNat }, 0)

/-- The call `ftw (path, &sum_sizes, 1)`: the callback runs on every visited entry;
the result is the return value of `ftw`. -/
def ftw (env : Env) (st : State) (path : CStr) : State × Int :=
  ((env.ftw_walk path).1.foldl (fun s sb => (sum_sizes s sb).1) st, (env.ftw_walk path).2)

/-- `check_uploaded_files`: the path must exist; its size is accumulated in
`total_size`.  When `ftw` fails the source calls `free (full_path)` on the `char **`
itself, the address of a local variable of the caller, before it reaches `exit`: that
is undefined behaviour.  The branch for a path that is not found frees `*full_path`
and exits. -/
def check_uploaded_files (env : Env) (st : State) (full_path : Option CStr) : Outcome State :=
  (is_file_or_dir_exists env st full_path).bind fun r =>
    if r > 0 then
      match full_path with
      | none => Outcome.undefined
      | some p =>
        if (ftw env st p).2 = -1 then Outcome.undefined
        else Outcome.returned (ftw env st p).1
    else Outcome.exit_failure st

/-- `get_uploaded_files_path`: the result is the new value of `*full_path`.  When
the destination cannot be read (absent or empty) the function prints an error and
returns, leaving `*full_path` as it was; when the name cannot be read it exits. -/
def get_uploaded_files_path (st : State) (full_path : Option CStr) : Outcome (Option CStr) :=
  match tr_variantDictFindStr st.top StrKey.TR_KEY_destination with
  | some (c :: cs) =>
    match tr_variantDictFindStr st.top StrKey.TR_KEY_name with
    | some str => Outcome.returned (some ((c :: cs) ++ ['/'] ++ str))
    | none => Outcome.exit_failure st
  | _ => Outcome.returned full_path

/-- `update_dates`: `localtime` is dereferenced first; then the date is replaced
when its local year is 1970 or `force_date_update` is set, provided `make_changes`. -/
def update_dates (env : Env) (st : State) (_date_name : String) (date_type : IntKey)
    (old_timestamp new_timestamp : Int) (force_date_update make_changes : Bool) :
    Outcome State :=
  match env.localtime old_timestamp with
  | none => Outcome.undefined
  | some instant =>
    if instant.tm_year + 1900 = 1970 ∨ force_date_update = true then
      if make_changes then
        Outcome.returned
          { st with
            top := tr_variantDictAddInt st.top date_type new_timestamp
            nb_repaired_inconsistencies := st.nb_repaired_inconsistencies + 1 }
      else Outcome.returned st
    else Outcome.returned st

/-- `check_dates`: both date fields, when present, go through `update_dates` with
the modification time of `*full_path`. -/
def check_dates (env : Env) (st : State) (full_path : Option CStr)
    (force_date_update make_changes : Bool) : Outcome State :=
  match stat env full_path with
  | StatResult.ok sb =>
    (match tr_variantDictFindInt st.top IntKey.TR_KEY_added_date with
      | some old_timestamp =>
        update_dates env st "added" IntKey.TR_KEY_added_date old_timestamp sb.st_mtime
          force_date_update make_changes
      | none => Outcome.returned st).bind fun st1 =>
    match tr_variantDictFindInt st1.top IntKey.TR_KEY_done_date with
    | some old_timestamp =>
      update_dates env st1 "done" IntKey.TR_KEY_done_date old_timestamp sb.st_mtime
        force_date_update make_changes
    | none => Outcome.returned st1
  | _ => Outcome.exit_failure st

/-- `reset_peers`: each peer list that is present becomes the empty blob. -/
def reset_peers (top : tr_variant) : tr_variant :=
  let top1 :=
    match tr_variantDictFindRaw top RawKey.TR_KEY_peers2 with
    | some _ => tr_variantDictAddRaw top RawKey.TR_KEY_peers2 []
    | none => top
  match tr_variantDictFindRaw top1 RawKey.TR_KEY_peers2_6 with
  | some _ => tr_variantDictAddRaw top1 RawKey.TR_KEY_peers2_6 []
  | none => top1

/-- `check_correct_files_pointed`.  The result of `tr_variantDictFindStr` is not
tested: without a name `actual_file` is an uninitialised pointer passed to `strstr`. -/
def check_correct_files_pointed (st : State) (resume_filename : CStr) : Outcome State :=
  match tr_variantDictFindStr st.top StrKey.TR_KEY_name with
  | none => Outcome.undefined
  | some actual_file =>
    if (strstr resume_filename actual_file).isSome then Outcome.returned st
    else
      match regexec resume_filename with
      | some start =>
        Outcome.returned
          { st with
            top := tr_variantDictAddStr st.top StrKey.TR_KEY_name (resume_filename.take start)
            nb_repaired_inconsistencies := st.nb_repaired_inconsistencies + 1 }
      | none => Outcome.exit_failure st

/-- `replace_dir`: the first occurrence of `old` in a non-empty destination is
replaced by `new`. -/
def replace_dir (st : State) (old new : CStr) : State :=
  match tr_variantDictFindStr st.top StrKey.TR_KEY_destination with
  | some (c :: cs) =>
    match strstr (c :: cs) old with
    | some start =>
      { st with
        top := tr_variantDictAddStr st.top StrKey.TR_KEY_destination
          ((c :: cs).take start ++ new ++ (c :: cs).drop (start + old.length))
        nb_repaired_inconsistencies := st.nb_repaired_inconsistencies + 1 }
    | none => st
  | _ => st

/-- The local variables of `repair_resume_file` next to the program state. -/
structure RepairFrame where
  st : State
  full_path : Option CStr
  force_date_update : Bool
  deriving DecidableEq, Repr

/-- The first part of `repair_resume_file` (lines 741 to 764): resolve the path,
check the name, and on a repair resolve the path again and force the dates. -/
def repair_resolve (st : State) (resume_filename : CStr) : Outcome RepairFrame :=
  (get_uploaded_files_path st none).bind fun full_path =>
  (check_correct_files_pointed st resume_filename).bind fun st1 =>
  if st1.nb_repaired_inconsistencies > 0 then
    (get_uploaded_files_path st1 full_path).bind fun full_path2 =>
    Outcome.returned { st := st1, full_path := full_path2, force_date_update := true }
  else
    Outcome.returned { st := st1, full_path := full_path, force_date_update := false }

/-- The second part of `repair_resume_file` (lines 766 to 770): existence and
dates.  The result is the state at the decision about the peers. -/
def repair_probe (env : Env) (fr : RepairFrame) (make_changes : Bool) : Outcome State :=
  (check_uploaded_files env fr.st fr.full_path).bind fun st2 =>
  check_dates env st2 fr.full_path fr.force_date_update make_changes

/-- `repair_resume_file`, the repair entry point. -/
def repair_resume_file (env : Env) (st : State) (resume_filename : CStr)
    (make_changes : Bool) : Outcome State :=
  (repair_resolve st resume_filename).bind fun fr =>
  (repair_probe env fr make_changes).bind fun st3 =>
  if st3.nb_repaired_inconsistencies > 0 ∧ make_changes = true then
    Outcome.returned { st3 with top := reset_peers st3.top }
  else Outcome.returned st3

/-- What `main` decided about the stored record: `WriteBack top` when
`tr_variantToFile` was called with `top`, `NoChange` when the file remains
untouched. -/
inductive Decision where
  | WriteBack (top : tr_variant)
  | NoChange
  deriving DecidableEq, Repr

/-- How the process ends. -/
inductive ProcessResult where
  | EXIT_SUCCESS (decision : Decision) (st : State)
  | EXIT_FAILURE (st : State)
  | undefined
  deriving DecidableEq, Repr

/-- The record handed to `tr_variantToFile` during the run, if any. -/
def ProcessResult.written : ProcessResult → Option tr_variant
  | ProcessResult.EXIT_SUCCESS (Decision.WriteBack top) _ => some top
  | _ => none

/-- The state in which the globals are when `main` starts. -/
def initial_state (top : tr_variant) : State :=
  { top := top, total_size := 0, nb_repaired_inconsistencies := 0 }

/-- The end of `main` (lines 842 to 856): the record is written when something
was repaired and changes are allowed. -/
def main_decide (st : State) (make_changes : Bool) : ProcessResult :=
  if st.nb_repaired_inconsistencies > 0 ∧ make_changes = true then
    ProcessResult.EXIT_SUCCESS (Decision.WriteBack st.top) st
  else ProcessResult.EXIT_SUCCESS Decision.NoChange st

/-- `main` after the command line is parsed and the resume file is loaded into
`top`: `resume_filename` is the basename of the resume file, `replace` holds the
two arguments of `-r` when that option was given. -/
def main (env : Env) (top : tr_variant) (resume_filename : CStr) (make_changes : Bool)
    (replace : Option (CStr × CStr)) : ProcessResult :=
  match replace with
  | none =>
    match repair_resume_file env (initial_state top) resume_filename make_changes with
    | Outcome.returned st => main_decide st make_changes
    | Outcome.exit_failure st => ProcessResult.EXIT_FAILURE st
    | Outcome.undefined => ProcessResult.undefined
  | some (old, new) => main_decide (replace_dir (initial_state top) old new) make_changes

/-! ## Vocabulary of the specification -/

/-- A storage filename that follows the convention: `p`, a dot, sixteen characters
that are lowercase letters or digits, and `.resume`. -/
def follows_convention (f p h : CStr) : Prop :=
  h.length = 16 ∧ (∀ c ∈ h, c.isLower = true ∨ c.isDigit = true) ∧
    f = p ++ ['.'] ++ h ++ ".resume".toList

/-- The path `destination ++ "/" ++ name` of a record whose destination is present
and not empty and whose name is present, as `get_uploaded_files_path` builds it. -/
def resolved_path (top : tr_variant) : Option CStr :=
  match top.destination, top.name with
  | some (c :: cs), some n => some ((c :: cs) ++ ['/'] ++ n)
  | _, _ => none

/-- The fields of the record apart from the two dates are the same. -/
def same_except_dates (a b : tr_variant) : Prop :=
  a.destination = b.destination ∧ a.name = b.name ∧ a.peers2 = b.peers2 ∧
    a.peers2_6 = b.peers2_6 ∧ a.others = b.others

/-- A date field that the date rule leaves alone when nothing is forced: it is
absent, or `localtime` delivers a year other than 1970 for it. -/
def date_settled (env : Env) (d : Option Int) : Prop :=
  ∀ v, d = some v → ∃ instant, env.localtime v = some instant ∧ instant.tm_year + 1900 ≠ 1970

/-- One of the two blocks of `check_dates`: the date under `key`, when present,
goes through `update_dates`. -/
def date_step (env : Env) (st : State) (date_name : String) (key : IntKey) (mtime : Int)
    (force_date_update make_changes : Bool) : Outcome State :=
  match tr_variantDictFindInt st.top key with
  | some old_timestamp =>
    update_dates env st date_name key old_timestamp mtime force_date_update make_changes
  | none => Outcome.returned st

/-! ## Records and environments of the examples -/

/-- The record used in the examples: the name does not fit the storage filename. -/
def wrong_top : tr_variant :=
  { destination := some "/data".toList, name := some "Wrong".toList,
    added_date := some 1477800000, done_date := some 1477900000,
    peers2 := some [1, 2, 3, 4, 5, 6], peers2_6 := none, others := [] }

/-- A file system in which `/data/Foo.bar` is a regular file of 1000 bytes last
modified at 1500000000, in a time zone one hour east of UTC. -/
def example_env : Env :=
  { stat := fun p =>
      if p = "/data/Foo.bar".toList then
        StatResult.ok { st_mode := FileType.S_IFREG, st_size := 1000, st_mtime := 1500000000 }
      else StatResult.ENOENT
    ftw_walk := fun p =>
      if p = "/data/Foo.bar".toList then
        ([{ st_mode := FileType.S_IFREG, st_size := 1000, st_mtime := 1500000000 }], 0)
      else ([], -1)
    localtime := localtime_fixed 3600 }

/-- The environment `example_env` in a time zone five hours west of UTC. -/
def west_env : Env := { example_env with localtime := localtime_fixed (-18000) }

/-- A file system in which nothing exists. -/
def empty_env : Env :=
  { stat := fun _ => StatResult.ENOENT
    ftw_walk := fun _ => ([], -1)
    localtime := localtime_fixed 3600 }

/-- The record `wrong_top` without a destination. -/
def no_destination_top : tr_variant := { wrong_top with destination := none }

/-- The record `wrong_top` with an empty destination. -/
def empty_destination_top : tr_variant := { wrong_top with destination := some [] }

/-- The storage filename of the examples. -/
def foo_bar_resume : CStr := "Foo.bar.ab12cd34ef56ab78.resume".toList

/-- A file system in which `/data/Foo.bar` was last modified 100 seconds after the
epoch, in the time zone UTC. -/
def epoch_env : Env :=
  { stat := fun p =>
      if p = "/data/Foo.bar".toList then
        StatResult.ok { st_mode := FileType.S_IFREG, st_size := 1000, st_mtime := 100 }
      else StatResult.ENOENT
    ftw_walk := fun p =>
      if p = "/data/Foo.bar".toList then
        ([{ st_mode := FileType.S_IFREG, st_size := 1000, st_mtime := 100 }], 0)
      else ([], -1)
    localtime := localtime_fixed 0 }

/-- A record with the right name and an added date of 0. -/
def zero_date_top : tr_variant :=
  { destination := some "/data".toList, name := some "Foo.bar".toList,
    added_date := some 0, done_date := none,
    peers2 := some [1, 2, 3, 4, 5, 6], peers2_6 := none, others := [] }

/-- The record `zero_date_top` after one repair session in `epoch_env`. -/
def zero_date_repaired : tr_variant :=
  { zero_date_top with added_date := some 100, peers2 := some [] }

/-- The record `wrong_top` after one repair session in `example_env`. -/
def wrong_top_repaired : tr_variant :=
  { wrong_top with
    name := some "Foo.bar".toList, added_date := some 1500000000,
    done_date := some 1500000000, peers2 := some [] }

/-- A record with destination `/data` and name `movie.mkv`. -/
def movie_top : tr_variant :=
  { destination := some "/data".toList, name := some "movie.mkv".toList,
    added_date := none, done_date := none, peers2 := none, peers2_6 := none, others := [] }

/-- A record with destination `/data/old/content`. -/
def old_dir_top : tr_variant :=
  { wrong_top with destination := some "/data/old/content".toList }

/-- The date rule in the words of the specification, for one field: an absent date
stays absent; a date that is present is erroneous when its local year is 1970 or
`force` is set; an erroneous date is replaced by `referenceTime` when `allowWrite` is
set.  The second component counts the overwrite (1 or 0). -/
def spec_date_rule (env : Env) (date : Option Int) (referenceTime : Int)
    (force allowWrite : Bool) : Option Int × Nat :=
  match date with
  | none => (none, 0)
  | some old =>
    if ((match env.localtime old with
        | some instant => decide (instant.tm_year + 1900 = 1970)
        | none => false) || force) && allowWrite then
      (some referenceTime, 1)
    else (some old, 0)

/-- A record whose added date is `2 ^ 62 = 4611686018427387904`, which has no local
time (the year does not fit in an `int`), and whose done date is 0. -/
def huge_added_date_top : tr_variant :=
  { zero_date_top with added_date := some 4611686018427387904, done_date := some 0 }

/-- A record whose two dates are both in the local year 1970. -/
def both_dates_zero_top : tr_variant :=
  { zero_date_top with added_date := some 0, done_date := some 50 }

/-- A record whose name occurs in a storage filename of the wrong shape. -/
def foo_bar_top : tr_variant := { wrong_top with name := some "Foo.bar".toList }

/-- A storage filename whose hash part has fifteen characters only. -/
def short_hash_resume : CStr := "Foo.bar.ab12cd34ef56ab7.resume".toList

/-- The record `wrong_top` with the name the checker infers. -/
def wrong_top_renamed : tr_variant := { wrong_top with name := some "Foo.bar".toList }

/-- A record with a destination and no name. -/
def no_name_top : tr_variant := { wrong_top with name := none }

/-- The aggregate size in the words of the specification: the sum of the sizes of the
regular files among the entries reachable under the path. -/
def spec_aggregate_size (entries : List Stat) : Int :=
  ((entries.filter (fun sb => sb.st_mode = FileType.S_IFREG)).map Stat.st_size).sum

/-- A file system in which `/data/Foo.bar` is a directory (of size 4096 itself) that
holds one regular file of 1000 bytes. -/
def dir_env : Env :=
  { stat := fun p =>
      if p = "/data/Foo.bar".toList then
        StatResult.ok { st_mode := FileType.S_IFDIR, st_size := 4096, st_mtime := 1500000000 }
      else StatResult.ENOENT
    ftw_walk := fun p =>
      if p = "/data/Foo.bar".toList then
        ([{ st_mode := FileType.S_IFDIR, st_size := 4096, st_mtime := 1500000000 },
          { st_mode := FileType.S_IFREG, st_size := 1000, st_mtime := 1400000000 }], 0)
      else ([], -1)
    localtime := localtime_fixed 3600 }

/-! # Theorems -/

/-! ## The typed accessors -/

@[simp] theorem findStr_destination (top : tr_variant) :
    tr_variantDictFindStr top StrKey.TR_KEY_destination = top.destination := rfl

@[simp] theorem findStr_name (top : tr_variant) :
    tr_variantDictFindStr top StrKey.TR_KEY_name = top.name := rfl

@[simp] theorem findInt_added_date (top : tr_variant) :
    tr_variantDictFindInt top IntKey.TR_KEY_added_date = top.added_date := rfl

@[simp] theorem findInt_done_date (top : tr_variant) :
    tr_variantDictFindInt top IntKey.TR_KEY_done_date = top.done_date := rfl

@[simp] theorem findRaw_peers2 (top : tr_variant) :
    tr_variantDictFindRaw top RawKey.TR_KEY_peers2 = top.peers2 := rfl

@[simp] theorem findRaw_peers2_6 (top : tr_variant) :
    tr_variantDictFindRaw top RawKey.TR_KEY_peers2_6 = top.peers2_6 := rfl

@[simp] theorem addStr_name (top : tr_variant) (val : CStr) :
    tr_variantDictAddStr top StrKey.TR_KEY_name val = { top with name := some val } := rfl

@[simp] theorem addStr_destination (top : tr_variant) (val : CStr) :
    tr_variantDictAddStr top StrKey.TR_KEY_destination val =
      { top with destination := some val } := rfl

@[simp] theorem addInt_added_date (top : tr_variant) (val : Int) :
    tr_variantDictAddInt top IntKey.TR_KEY_added_date val =
      { top with added_date := some val } := rfl

@[simp] theorem addInt_done_date (top : tr_variant) (val : Int) :
    tr_variantDictAddInt top IntKey.TR_KEY_done_date val =
      { top with done_date := some val } := rfl

@[simp] theorem addRaw_peers2 (top : tr_variant) (val : Bytes) :
    tr_variantDictAddRaw top RawKey.TR_KEY_peers2 val = { top with peers2 := some val } := rfl

@[simp] theorem addRaw_peers2_6 (top : tr_variant) (val : Bytes) :
    tr_variantDictAddRaw top RawKey.TR_KEY_peers2_6 val =
      { top with peers2_6 := some val } := rfl

/-! ## Properties of the string functions -/

theorem strstr_isSome_iff (hay needle : CStr) :
    (strstr hay needle).isSome = true ↔ needle <:+: hay := by
  induction hay with
  | nil =>
    by_cases h : needle = [] <;> simp [strstr, h]
  | cons c hay ih =>
    rw [List.infix_cons_iff, ← ih]
    by_cases h : needle.isPrefixOf (c :: hay) = true
    · have h2 : needle <+: c :: hay := List.isPrefixOf_iff_prefix.mp h
      simp [strstr, h, h2]
    · have h2 : ¬ needle <+: c :: hay := fun hp => h (List.isPrefixOf_iff_prefix.mpr hp)
      simp [strstr, h, h2]

theorem dot_resume_eq : ".resume".toList = dot_resume := rfl

theorem regex_suffix_at_iff (s : CStr) :
    regex_suffix_at s = true ↔ ∃ h, follows_convention s [] h := by
  constructor
  · intro hs
    cases s with
    | nil => simp [regex_suffix_at] at hs
    | cons c rest =>
      simp only [regex_suffix_at, Bool.and_eq_true, beq_iff_eq, decide_eq_true_eq,
        List.all_eq_true, Bool.or_eq_true] at hs
      obtain ⟨⟨⟨hc, hlen⟩, hall⟩, hdrop⟩ := hs
      refine ⟨rest.take 16, ?_, hall, ?_⟩
      · simp [hlen]
      · rw [dot_resume_eq, ← hdrop, hc]
        simp
  · rintro ⟨h, hlen, hall, rfl⟩
    simp only [List.nil_append, List.singleton_append, List.cons_append, regex_suffix_at,
      dot_resume_eq, Bool.and_eq_true, beq_iff_eq, decide_eq_true_eq, List.all_eq_true,
      Bool.or_eq_true]
    refine ⟨⟨⟨trivial, ?_⟩, ?_⟩, ?_⟩
    · simp [hlen, dot_resume]
    · intro x hx
      rw [List.take_append_of_le_length (by omega), List.take_of_length_le (by omega)] at hx
      exact hall x hx
    · rw [List.drop_append_of_le_length (by omega), List.drop_of_length_le (by omega)]
      simp

theorem follows_convention_length {f p h : CStr} (hf : follows_convention f p h) :
    f.length = p.length + 24 := by
  obtain ⟨hlen, -, rfl⟩ := hf
  simp [hlen, dot_resume_eq, dot_resume]

theorem regexec_of_convention (p h : CStr) :
    ∀ f, follows_convention f p h → regexec f = some p.length := by
  induction p with
  | nil =>
    intro f hf
    have hm : regex_suffix_at f = true := (regex_suffix_at_iff f).mpr ⟨h, hf⟩
    cases f with
    | nil => simp [regex_suffix_at] at hm
    | cons c s => simp [regexec, hm]
  | cons a p ih =>
    intro f hf
    have hlen := follows_convention_length hf
    obtain ⟨h16, hall, hf⟩ := hf
    have hrec := ih (p ++ ['.'] ++ h ++ ".resume".toList) ⟨h16, hall, rfl⟩
    rw [List.cons_append, List.cons_append, List.cons_append] at hf
    generalize p ++ ['.'] ++ h ++ ".resume".toList = g at hf hrec
    subst hf
    have hnot : regex_suffix_at (a :: g) = false := by
      rw [Bool.eq_false_iff]
      intro hm
      obtain ⟨h2, hf2⟩ := (regex_suffix_at_iff _).mp hm
      have := follows_convention_length hf2
      simp at hlen this
      omega
    simp [regexec, hnot, hrec]

theorem regexec_some (f : CStr) :
    ∀ start, regexec f = some start →
      ∃ h, follows_convention f (f.take start) h := by
  induction f with
  | nil => intro start hs; simp [regexec] at hs
  | cons c s ih =>
    intro start hs
    by_cases hm : regex_suffix_at (c :: s) = true
    · simp only [regexec, hm, if_true, Option.some.injEq] at hs
      subst hs
      simpa using (regex_suffix_at_iff _).mp hm
    · simp only [regexec, hm, Bool.false_eq_true, if_false, Option.map_eq_some'] at hs
      obtain ⟨i, hi, rfl⟩ := hs
      obtain ⟨h, h16, hall, hf⟩ := ih i hi
      refine ⟨h, h16, hall, ?_⟩
      simp only [List.take_succ_cons, List.cons_append]
      exact congrArg (List.cons c) hf

/-! ## The name consistency checker -/

theorem check_correct_files_pointed_consistent (st : State) (f n : CStr)
    (hname : st.top.name = some n) (hsub : n <:+: f) :
    check_correct_files_pointed st f = Outcome.returned st := by
  have h := (strstr_isSome_iff f n).mpr hsub
  simp [check_correct_files_pointed, hname, h]

theorem check_correct_files_pointed_mismatch (st : State) (f n : CStr)
    (hname : st.top.name = some n) (hsub : ¬ n <:+: f) :
    check_correct_files_pointed st f =
      match regexec f with
      | some start =>
        Outcome.returned
          { st with
            top := { st.top with name := some (f.take start) }
            nb_repaired_inconsistencies := st.nb_repaired_inconsistencies + 1 }
      | none => Outcome.exit_failure st := by
  have h : (strstr f n).isSome = false := by
    rw [Bool.eq_false_iff]
    exact fun hs => hsub ((strstr_isSome_iff f n).mp hs)
  simp only [check_correct_files_pointed, findStr_name, hname, h, Bool.false_eq_true,
    if_false]
  cases regexec f <;> rfl

theorem get_uploaded_files_path_named (st : State) (n : CStr) (full_path : Option CStr)
    (hname : st.top.name = some n) :
    ∃ path, get_uploaded_files_path st full_path = Outcome.returned path := by
  unfold get_uploaded_files_path
  rcases hd : st.top.destination with _ | ⟨_ | ⟨c, cs⟩⟩ <;> simp [hname, hd]

/-- C1. Name inference: when the storage filename is `p ++ "." ++ h ++ ".resume"`
with `h` sixteen lowercase letters or digits and the name of the record does not
occur in it, `check_correct_files_pointed` returns with the name overwritten by
exactly `p` and the repaired count increased by one, and in `repair_resume_file` the
flag `force_date_update` is then set to true. -/
theorem c1_name_inference (st : State) (f p h n : CStr)
    (hf : follows_convention f p h) (hname : st.top.name = some n) (hsub : ¬ n <:+: f) :
    check_correct_files_pointed st f =
        Outcome.returned
          { st with
            top := { st.top with name := some p }
            nb_repaired_inconsistencies := st.nb_repaired_inconsistencies + 1 } ∧
      ∃ path, repair_resolve st f =
        Outcome.returned
          { st :=
              { st with
                top := { st.top with name := some p }
                nb_repaired_inconsistencies := st.nb_repaired_inconsistencies + 1 }
            full_path := path
            force_date_update := true } := by
  have htake : f.take p.length = p := by
    obtain ⟨-, -, rfl⟩ := hf
    simp [List.append_assoc]
  have hcheck := check_correct_files_pointed_mismatch st f n hname hsub
  rw [regexec_of_convention p h f hf] at hcheck
  simp only [htake] at hcheck
  refine ⟨hcheck, ?_⟩
  obtain ⟨path1, h1⟩ := get_uploaded_files_path_named st n none hname
  obtain ⟨path2, h2⟩ := get_uploaded_files_path_named
    { st with
      top := { st.top with name := some p }
      nb_repaired_inconsistencies := st.nb_repaired_inconsistencies + 1 } p path1 rfl
  exact ⟨path2, by simp [repair_resolve, Outcome.bind, h1, hcheck, h2]⟩

/-- The example of C1: storage filename `Foo.bar.ab12cd34ef56ab78.resume` and name
`Wrong` give the name `Foo.bar` and one repair. -/
theorem c1_name_inference_witness :
    check_correct_files_pointed (initial_state wrong_top)
        "Foo.bar.ab12cd34ef56ab78.resume".toList =
      Outcome.returned
        { top := { wrong_top with name := some "Foo.bar".toList }
          total_size := 0
          nb_repaired_inconsistencies := 1 } :=
  (c1_name_inference (initial_state wrong_top) "Foo.bar.ab12cd34ef56ab78.resume".toList
    "Foo.bar".toList "ab12cd34ef56ab78".toList "Wrong".toList
    ⟨by decide, by decide, by decide⟩ rfl (by decide)).1

/-- C2. Consistent case: when the name of the record occurs in the storage filename,
`check_correct_files_pointed` returns the state as it was (every field of the record
and the repaired count), and in a session that starts with no repair the flag
`force_date_update` stays false. -/
theorem c2_consistent_unchanged (st : State) (f n : CStr)
    (hname : st.top.name = some n) (hsub : n <:+: f) :
    check_correct_files_pointed st f = Outcome.returned st ∧
      (st.nb_repaired_inconsistencies = 0 →
        ∃ path, repair_resolve st f =
          Outcome.returned { st := st, full_path := path, force_date_update := false }) := by
  have hcheck := check_correct_files_pointed_consistent st f n hname hsub
  refine ⟨hcheck, fun h0 => ?_⟩
  obtain ⟨path1, h1⟩ := get_uploaded_files_path_named st n none hname
  exact ⟨path1, by simp [repair_resolve, Outcome.bind, h1, hcheck, h0]⟩

/-- An example of C2: the name `Foo.bar` occurs in the storage filename. -/
theorem c2_consistent_unchanged_witness :
    check_correct_files_pointed (initial_state { wrong_top with name := some "Foo.bar".toList })
        "Foo.bar.ab12cd34ef56ab78.resume".toList =
      Outcome.returned (initial_state { wrong_top with name := some "Foo.bar".toList }) :=
  (c2_consistent_unchanged (initial_state { wrong_top with name := some "Foo.bar".toList })
    "Foo.bar.ab12cd34ef56ab78.resume".toList "Foo.bar".toList rfl (by decide)).1

/-- C3. Malformed storage filename on mismatch: when the name of the record does not
occur in the storage filename and the storage filename does not end in a dot,
sixteen lowercase letters or digits and `.resume`, `check_correct_files_pointed`
calls `exit (EXIT_FAILURE)` with the record and the repaired count as they were, and
the whole process ends in failure without writing. -/
theorem c3_malformed_filename_fatal (env : Env) (st : State)
    (f n : CStr) (make_changes : Bool)
    (hname : st.top.name = some n) (hsub : ¬ n <:+: f)
    (hbad : ¬ ∃ p h, follows_convention f p h) :
    check_correct_files_pointed st f = Outcome.exit_failure st ∧
      main env st.top f make_changes none =
        ProcessResult.EXIT_FAILURE (initial_state st.top) := by
  have hnone : regexec f = none := by
    cases hr : regexec f with
    | none => rfl
    | some start =>
      obtain ⟨h, hh⟩ := regexec_some f start hr
      exact absurd ⟨_, h, hh⟩ hbad
  have hcheck := check_correct_files_pointed_mismatch st f n hname hsub
  rw [hnone] at hcheck
  refine ⟨hcheck, ?_⟩
  have hname2 : (initial_state st.top).top.name = some n := hname
  obtain ⟨path1, h1⟩ := get_uploaded_files_path_named (initial_state st.top) n none hname2
  have hcheck2 := check_correct_files_pointed_mismatch (initial_state st.top) f n hname2 hsub
  rw [hnone] at hcheck2
  simp [main, repair_resume_file, repair_resolve, Outcome.bind, h1, hcheck2]

/-- An example of C3: the hash part has fifteen characters only. -/
theorem c3_malformed_filename_fatal_witness :
    check_correct_files_pointed (initial_state wrong_top)
        "Foo.bar.ab12cd34ef56ab7.resume".toList =
      Outcome.exit_failure (initial_state wrong_top) :=
  (c3_malformed_filename_fatal ⟨fun _ => StatResult.ENOENT, fun _ => ([], 0), fun _ => none⟩
    (initial_state wrong_top) "Foo.bar.ab12cd34ef56ab7.resume".toList
    "Wrong".toList true rfl (by decide)
    (by
      rintro ⟨p, h, hf⟩
      have h1 := regexec_of_convention p h _ hf
      have h2 : regexec "Foo.bar.ab12cd34ef56ab7.resume".toList = none := by decide
      rw [h2] at h1
      exact Option.noConfusion h1)).1

/-! ## The date normalizer -/

theorem update_dates_eq (env : Env) (st : State) (date_name : String) (date_type : IntKey)
    (t r : Int) (force make_changes : Bool) (instant : Tm)
    (hlt : env.localtime t = some instant) :
    update_dates env st date_name date_type t r force make_changes =
      Outcome.returned
        (if (instant.tm_year + 1900 = 1970 ∨ force = true) ∧ make_changes = true then
          { st with
            top := tr_variantDictAddInt st.top date_type r
            nb_repaired_inconsistencies := st.nb_repaired_inconsistencies + 1 }
        else st) := by
  unfold update_dates
  rw [hlt]
  by_cases h1 : instant.tm_year + 1900 = 1970 ∨ force = true <;>
    by_cases h2 : make_changes = true <;> simp [h1, h2]

theorem findInt_addInt (top : tr_variant) (key : IntKey) (r : Int) :
    tr_variantDictFindInt (tr_variantDictAddInt top key r) key = some r := by
  cases key <;> rfl

/-- The date rule where `localtime` delivers: for such a timestamp `t`, `update_dates`
overwrites the date field with the reference time `r` and adds one to the repaired
count if and only if (the local year of `t` is 1970 or `force` is set) and
`make_changes` is set; in every other case the state is unchanged. -/
theorem update_dates_rule (env : Env) (st : State) (date_name : String) (date_type : IntKey)
    (t r : Int) (force make_changes : Bool) (instant : Tm)
    (hlt : env.localtime t = some instant) :
    (update_dates env st date_name date_type t r force make_changes =
        Outcome.returned
          { st with
            top := tr_variantDictAddInt st.top date_type r
            nb_repaired_inconsistencies := st.nb_repaired_inconsistencies + 1 } ↔
      (instant.tm_year + 1900 = 1970 ∨ force = true) ∧ make_changes = true) ∧
    (¬ ((instant.tm_year + 1900 = 1970 ∨ force = true) ∧ make_changes = true) →
      update_dates env st date_name date_type t r force make_changes =
        Outcome.returned st) ∧
    tr_variantDictFindInt (tr_variantDictAddInt st.top date_type r) date_type = some r := by
  rw [update_dates_eq env st date_name date_type t r force make_changes instant hlt]
  refine ⟨?_, ?_, findInt_addInt _ _ _⟩
  · by_cases h : (instant.tm_year + 1900 = 1970 ∨ force = true) ∧ make_changes = true
    · simp [h]
    · simp only [h, if_false, iff_false]
      intro heq
      have := congrArg State.nb_repaired_inconsistencies (Outcome.returned.inj heq)
      simp at this
  · intro h
    simp [h]

/-- An example of the date rule: with `force` and `make_changes` set, a done date of
the year 2016 is overwritten. -/
theorem update_dates_rule_example :
    update_dates example_env (initial_state wrong_top) "done" IntKey.TR_KEY_done_date
        1477900000 1500000000 true true =
      Outcome.returned
        { top := { wrong_top with done_date := some 1500000000 }
          total_size := 0
          nb_repaired_inconsistencies := 1 } :=
  (update_dates_rule example_env (initial_state wrong_top) "done" IntKey.TR_KEY_done_date
    1477900000 1500000000 true true { tm_year := 116 } (by decide)).1.mpr
    ⟨Or.inr rfl, rfl⟩

/-- Where `localtime` returns NULL, `update_dates` dereferences it before any test. -/
theorem update_dates_null (env : Env) (st : State) (date_name : String) (date_type : IntKey)
    (t r : Int) (force make_changes : Bool) (hlt : env.localtime t = none) :
    update_dates env st date_name date_type t r force make_changes = Outcome.undefined := by
  unfold update_dates
  rw [hlt]

/-- C4. The date rule at a timestamp that has no local time: for the timestamp
`2 ^ 62 = 4611686018427387904` the year does not fit in an `int`, `localtime` returns
NULL, and `update_dates` dereferences it: with `force` and `make_changes` set the date
is not overwritten and the count is not incremented, the run is undefined (in practice
a crash). -/
theorem c4_unrepresentable_timestamp_undefined (st : State) (date_type : IntKey) (r : Int) :
    example_env.localtime 4611686018427387904 = none ∧
      update_dates example_env st "added" date_type 4611686018427387904 r true true =
        Outcome.undefined := by
  have hlt : example_env.localtime 4611686018427387904 = none := by decide
  exact ⟨hlt, update_dates_null example_env st _ _ _ _ _ _ hlt⟩

theorem civil_year_first_year (d : Int) (h0 : 0 ≤ d) (h1 : d < 365) :
    civil_year d = 1970 := by
  unfold civil_year
  simp only []
  split <;> omega

theorem localtime_fixed_zero_east (gmtoff : Int) (h0 : 0 ≤ gmtoff)
    (h1 : gmtoff < 365 * 86400) : localtime_fixed gmtoff 0 = some { tm_year := 70 } := by
  have hd0 : 0 ≤ gmtoff / 86400 := Int.ediv_nonneg h0 (by norm_num)
  have hd1 : gmtoff / 86400 < 365 := by
    apply Int.ediv_lt_of_lt_mul (by norm_num)
    linarith
  have hy := civil_year_first_year _ hd0 hd1
  simp [localtime_fixed, hy]

/-- In every time zone at or east of UTC an added date of 0 falls in the local year
1970: it is replaced when `make_changes` is set and left alone otherwise. -/
theorem update_dates_zero_east (env : Env) (st : State) (r gmtoff : Int)
    (h0 : 0 ≤ gmtoff) (h1 : gmtoff < 365 * 86400)
    (henv : env.localtime = localtime_fixed gmtoff) :
    update_dates env st "added" IntKey.TR_KEY_added_date 0 r false true =
        Outcome.returned
          { st with
            top := { st.top with added_date := some r }
            nb_repaired_inconsistencies := st.nb_repaired_inconsistencies + 1 } ∧
      update_dates env st "added" IntKey.TR_KEY_added_date 0 r false false =
        Outcome.returned st := by
  have he : env.localtime 0 = some { tm_year := 70 } := by
    rw [henv]
    exact localtime_fixed_zero_east gmtoff h0 h1
  rw [update_dates_eq env st _ _ 0 r false true _ he,
    update_dates_eq env st _ _ 0 r false false _ he]
  simp

/-- C5. Time zero west of Greenwich: in a time zone five hours west of UTC the
timestamp 0 has the local year 1969, so `update_dates` without `force` leaves an
added date of 0 and the repaired count unchanged, also when `make_changes` is set. -/
theorem c5_zero_date_west_not_repaired (st : State) (r : Int) (make_changes : Bool) :
    west_env.localtime 0 = some { tm_year := 69 } ∧
      update_dates west_env st "added" IntKey.TR_KEY_added_date 0 r false make_changes =
        Outcome.returned st := by
  have hw : west_env.localtime 0 = some { tm_year := 69 } := by decide
  refine ⟨hw, ?_⟩
  rw [update_dates_eq west_env st _ _ 0 r false make_changes _ hw]
  simp

/-! ## The stages of the repair session -/

theorem get_uploaded_files_path_resolved (st : State) (n : CStr)
    (hname : st.top.name = some n) :
    get_uploaded_files_path st none = Outcome.returned (resolved_path st.top) := by
  unfold get_uploaded_files_path resolved_path
  rcases hd : st.top.destination with _ | ⟨_ | ⟨c, cs⟩⟩ <;> simp [hname, hd]

theorem get_uploaded_files_path_again (st st1 : State) (n1 : CStr)
    (hname1 : st1.top.name = some n1)
    (hdest : st1.top.destination = st.top.destination) :
    get_uploaded_files_path st1 (resolved_path st.top) =
      Outcome.returned (resolved_path st1.top) := by
  unfold get_uploaded_files_path resolved_path
  rcases hd : st.top.destination with _ | ⟨_ | ⟨c, cs⟩⟩ <;> simp [hname1, hdest, hd]

/-- What `repair_resolve` leaves behind when it returns: the name occurs in the
storage filename, the path is the resolved path of the resulting record, and the
flag tells whether the count is positive. -/
theorem repair_resolve_returned (st : State) (f : CStr) (fr : RepairFrame)
    (h : repair_resolve st f = Outcome.returned fr) :
    (∃ n, fr.st.top = { st.top with name := some n } ∧ n <:+: f) ∧
      fr.full_path = resolved_path fr.st.top ∧
      fr.st.total_size = st.total_size ∧
      st.nb_repaired_inconsistencies ≤ fr.st.nb_repaired_inconsistencies ∧
      (fr.force_date_update = true ↔ fr.st.nb_repaired_inconsistencies > 0) := by
  unfold repair_resolve at h
  cases hn : st.top.name with
  | none =>
    exfalso
    cases hg : get_uploaded_files_path st none <;>
      simp [Outcome.bind, hg, check_correct_files_pointed, hn] at h
  | some n =>
    rw [get_uploaded_files_path_resolved st n hn] at h
    by_cases hsub : n <:+: f
    · rw [check_correct_files_pointed_consistent st f n hn hsub] at h
      simp only [Outcome.bind] at h
      rw [get_uploaded_files_path_again st st n hn rfl] at h
      have htop : st.top = { st.top with name := some n } := by
        cases st with
        | mk top ts nb =>
          cases top
          simp_all
      by_cases hpos : st.nb_repaired_inconsistencies > 0
      · simp only [hpos, if_true, Outcome.bind, Outcome.returned.injEq] at h
        subst h
        exact ⟨⟨n, htop, hsub⟩, rfl, rfl, le_refl _, by simp [hpos]⟩
      · simp only [hpos, if_false, Outcome.returned.injEq] at h
        subst h
        exact ⟨⟨n, htop, hsub⟩, rfl, rfl, le_refl _, by simp [hpos]⟩
    · rw [check_correct_files_pointed_mismatch st f n hn hsub] at h
      cases hr : regexec f with
      | none => simp [hr, Outcome.bind] at h
      | some start =>
        simp only [hr, Outcome.bind, gt_iff_lt, Nat.lt_add_left_iff_pos, Nat.lt_one_iff,
          pos_of_gt, Nat.zero_lt_succ, if_true] at h
        rw [get_uploaded_files_path_again st
          { st with
            top := { st.top with name := some (f.take start) }
            nb_repaired_inconsistencies := st.nb_repaired_inconsistencies + 1 }
          (f.take start) rfl rfl] at h
        simp only [Outcome.bind, Outcome.returned.injEq] at h
        subst h
        exact ⟨⟨f.take start, rfl, (List.take_prefix _ _).isInfix⟩, rfl, rfl,
          Nat.le_succ _, by simp⟩

theorem foldl_sum_sizes (l : List Stat) :
    ∀ st : State,
      l.foldl (fun s sb => (sum_sizes s sb).1) st =
        { st with
          total_size :=
            l.foldl (fun t sb => (((t : Int) + sb.st_size) % (2 : Int) ^ 64).toNat)
              st.total_size } := by
  induction l with
  | nil => intro st; rfl
  | cons sb l ih =>
    intro st
    simp only [List.foldl_cons]
    rw [ih]
    rfl

/-- The total that `ftw` with `sum_sizes` leaves in `total_size`, starting from `t`. -/
theorem ftw_state (env : Env) (st : State) (p : CStr) :
    (ftw env st p).1 =
      { st with
        total_size :=
          (env.ftw_walk p).1.foldl (fun t sb => (((t : Int) + sb.st_size) % (2 : Int) ^ 64).toNat)
            st.total_size } := by
  unfold ftw
  exact foldl_sum_sizes _ st

theorem check_uploaded_files_returned (env : Env) (st st2 : State) (path : Option CStr)
    (h : check_uploaded_files env st path = Outcome.returned st2) :
    ∃ p, path = some p ∧ st2 = (ftw env st p).1 ∧
      ∀ st0 : State, check_uploaded_files env st0 path = Outcome.returned (ftw env st0 p).1 := by
  unfold check_uploaded_files at h
  cases path with
  | none => simp [is_file_or_dir_exists, stat, Outcome.bind] at h
  | some p =>
    refine ⟨p, rfl, ?_⟩
    unfold check_uploaded_files
    have hftw : ∀ s : State, (ftw env s p).2 = (env.ftw_walk p).2 := fun _ => rfl
    simp only [is_file_or_dir_exists, stat, hftw] at h ⊢
    cases hs : env.stat p with
    | ENOENT => simp [hs, Outcome.bind] at h
    | error => simp [hs, Outcome.bind] at h
    | ok info =>
      rw [hs] at h
      cases hm : info.st_mode <;> simp only [hm, Outcome.bind] at h ⊢ <;>
        by_cases hw : (env.ftw_walk p).2 = -1 <;> simp_all

/-! ## The dates of a session -/

theorem check_dates_eq (env : Env) (st : State) (path : Option CStr) (force mc : Bool) :
    check_dates env st path force mc =
      match stat env path with
      | StatResult.ok sb =>
        (date_step env st "added" IntKey.TR_KEY_added_date sb.st_mtime force mc).bind
          fun st1 => date_step env st1 "done" IntKey.TR_KEY_done_date sb.st_mtime force mc
      | _ => Outcome.exit_failure st := by
  unfold check_dates date_step
  cases stat env path <;> rfl

theorem same_except_dates_refl (a : tr_variant) : same_except_dates a a :=
  ⟨rfl, rfl, rfl, rfl, rfl⟩

theorem same_except_dates_trans {a b c : tr_variant} (h1 : same_except_dates a b)
    (h2 : same_except_dates b c) : same_except_dates a c :=
  ⟨h1.1.trans h2.1, h1.2.1.trans h2.2.1, h1.2.2.1.trans h2.2.2.1,
    h1.2.2.2.1.trans h2.2.2.2.1, h1.2.2.2.2.trans h2.2.2.2.2⟩

theorem same_except_dates_addInt (top : tr_variant) (key : IntKey) (r : Int) :
    same_except_dates (tr_variantDictAddInt top key r) top := by
  cases key <;> exact ⟨rfl, rfl, rfl, rfl, rfl⟩

theorem findInt_addInt_other (top : tr_variant) (key k : IntKey) (r : Int) (hk : k ≠ key) :
    tr_variantDictFindInt (tr_variantDictAddInt top key r) k = tr_variantDictFindInt top k := by
  cases key <;> cases k <;> first | rfl | exact absurd rfl hk

/-- What one block of `check_dates` leaves behind when it returns. -/
theorem date_step_returned (env : Env) (st st1 : State) (nm : String) (key : IntKey)
    (r : Int) (force mc : Bool)
    (h : date_step env st nm key r force mc = Outcome.returned st1) :
    same_except_dates st1.top st.top ∧
      (∀ k, k ≠ key → tr_variantDictFindInt st1.top k = tr_variantDictFindInt st.top k) ∧
      st1.total_size = st.total_size ∧
      st.nb_repaired_inconsistencies ≤ st1.nb_repaired_inconsistencies ∧
      (mc = false → st1 = st) ∧
      (mc = true → date_settled env (some r) →
        date_settled env (tr_variantDictFindInt st1.top key)) := by
  unfold date_step at h
  cases hf : tr_variantDictFindInt st.top key with
  | none =>
    simp only [hf, Outcome.returned.injEq] at h
    subst h
    refine ⟨same_except_dates_refl _, fun _ _ => rfl, rfl, le_refl _, fun _ => rfl, ?_⟩
    intro _ _ v hv
    rw [hf] at hv
    exact Option.noConfusion hv
  | some old =>
    simp only [hf] at h
    cases hl : env.localtime old with
    | none => simp [update_dates, hl] at h
    | some instant =>
      rw [update_dates_eq env st nm key old r force mc instant hl] at h
      by_cases hc : (instant.tm_year + 1900 = 1970 ∨ force = true) ∧ mc = true
      · simp only [hc, and_self, if_true, Outcome.returned.injEq] at h
        subst h
        refine ⟨same_except_dates_addInt _ _ _, fun k hk => findInt_addInt_other _ _ _ _ hk,
          rfl, Nat.le_succ _, fun hmc => ?_, fun _ hr => ?_⟩
        · rw [hc.2] at hmc
          exact Bool.noConfusion hmc
        · simp only [findInt_addInt]
          exact hr
      · simp only [hc, if_false, Outcome.returned.injEq] at h
        subst h
        refine ⟨same_except_dates_refl _, fun _ _ => rfl, rfl, le_refl _, fun _ => rfl, ?_⟩
        intro hmc _ v hv
        rw [hf] at hv
        obtain rfl := Option.some.inj hv
        refine ⟨instant, hl, fun hy => hc ⟨Or.inl hy, hmc⟩⟩

/-- A settled date is left alone when nothing is forced. -/
theorem date_step_settled (env : Env) (st : State) (nm : String) (key : IntKey) (r : Int)
    (mc : Bool) (hs : date_settled env (tr_variantDictFindInt st.top key)) :
    date_step env st nm key r false mc = Outcome.returned st := by
  unfold date_step
  cases hf : tr_variantDictFindInt st.top key with
  | none => rfl
  | some old =>
    obtain ⟨instant, hl, hy⟩ := hs old hf
    simp only []
    rw [update_dates_eq env st nm key old r false mc instant hl]
    simp [hy]

/-- What `check_dates` leaves behind when it returns. -/
theorem check_dates_returned (env : Env) (st st3 : State) (path : Option CStr)
    (force mc : Bool) (h : check_dates env st path force mc = Outcome.returned st3) :
    ∃ sb, stat env path = StatResult.ok sb ∧
      same_except_dates st3.top st.top ∧
      st3.total_size = st.total_size ∧
      st.nb_repaired_inconsistencies ≤ st3.nb_repaired_inconsistencies ∧
      (mc = false → st3 = st) ∧
      (mc = true → date_settled env (some sb.st_mtime) →
        date_settled env st3.top.added_date ∧ date_settled env st3.top.done_date) := by
  rw [check_dates_eq] at h
  cases hs : stat env path with
  | ENOENT => simp [hs] at h
  | error => simp [hs] at h
  | ok sb =>
    simp only [hs] at h
    cases h1 : date_step env st "added" IntKey.TR_KEY_added_date sb.st_mtime force mc with
    | exit_failure s => simp [h1, Outcome.bind] at h
    | undefined => simp [h1, Outcome.bind] at h
    | returned st1 =>
      simp only [h1, Outcome.bind] at h
      obtain ⟨a1, a2, a3, a4, a5, a6⟩ := date_step_returned env st st1 _ _ _ _ _ h1
      obtain ⟨b1, b2, b3, b4, b5, b6⟩ := date_step_returned env st1 st3 _ _ _ _ _ h
      refine ⟨sb, rfl, same_except_dates_trans b1 a1, b3.trans a3, le_trans a4 b4,
        fun hmc => (b5 hmc).trans (a5 hmc), fun hmc hr => ⟨?_, ?_⟩⟩
      · have := b2 IntKey.TR_KEY_added_date (by decide)
        simp only [findInt_added_date] at this
        rw [this]
        exact a6 hmc hr
      · exact b6 hmc hr

/-- On a record whose dates are settled `check_dates` without `force` changes
nothing. -/
theorem check_dates_settled (env : Env) (st : State) (path : Option CStr) (sb : Stat)
    (mc : Bool) (hs : stat env path = StatResult.ok sb)
    (ha : date_settled env st.top.added_date) (hd : date_settled env st.top.done_date) :
    check_dates env st path false mc = Outcome.returned st := by
  rw [check_dates_eq, hs]
  simp only []
  rw [date_step_settled env st _ IntKey.TR_KEY_added_date _ _ ha]
  simp only [Outcome.bind]
  exact date_step_settled env st _ IntKey.TR_KEY_done_date _ _ hd

theorem reset_peers_same (top : tr_variant) :
    (reset_peers top).destination = top.destination ∧ (reset_peers top).name = top.name ∧
      (reset_peers top).added_date = top.added_date ∧
      (reset_peers top).done_date = top.done_date ∧
      (reset_peers top).others = top.others ∧
      (reset_peers top).peers2 = top.peers2.map (fun _ => []) ∧
      (reset_peers top).peers2_6 = top.peers2_6.map (fun _ => []) := by
  unfold reset_peers
  cases h1 : top.peers2 <;> cases h2 : top.peers2_6 <;> simp [h1, h2]

/-! ## The repair session and the decision of `main` -/

/-- The steps behind a `repair_resume_file` that returns. -/
theorem repair_resume_file_returned (env : Env) (st st1 : State) (f : CStr) (mc : Bool)
    (h : repair_resume_file env st f mc = Outcome.returned st1) :
    ∃ fr st2 st3, repair_resolve st f = Outcome.returned fr ∧
      check_uploaded_files env fr.st fr.full_path = Outcome.returned st2 ∧
      check_dates env st2 fr.full_path fr.force_date_update mc = Outcome.returned st3 ∧
      st1 = if st3.nb_repaired_inconsistencies > 0 ∧ mc = true then
          { st3 with top := reset_peers st3.top }
        else st3 := by
  unfold repair_resume_file at h
  cases hr : repair_resolve st f with
  | exit_failure s => simp [hr, Outcome.bind] at h
  | undefined => simp [hr, Outcome.bind] at h
  | returned fr =>
    simp only [hr, Outcome.bind, repair_probe] at h
    cases hc : check_uploaded_files env fr.st fr.full_path with
    | exit_failure s => simp [hc] at h
    | undefined => simp [hc] at h
    | returned st2 =>
      simp only [hc] at h
      cases hd : check_dates env st2 fr.full_path fr.force_date_update mc with
      | exit_failure s => simp [hd] at h
      | undefined => simp [hd] at h
      | returned st3 =>
        simp only [hd] at h
        refine ⟨fr, st2, st3, rfl, hc, hd, ?_⟩
        by_cases hcond : st3.nb_repaired_inconsistencies > 0 ∧ mc = true
        · simp only [hcond, and_self, if_true, Outcome.returned.injEq] at h
          simp [hcond, ← h]
        · simp only [hcond, if_false, Outcome.returned.injEq] at h
          simp [hcond, ← h]

/-- The peer lists of the state in which `repair_resume_file` decides about
`reset_peers` are those of the record at the start. -/
theorem repair_probe_peers (env : Env) (st st3 : State) (f : CStr) (mc : Bool)
    (h : (repair_resolve st f).bind (fun fr => repair_probe env fr mc) =
      Outcome.returned st3) :
    st3.top.peers2 = st.top.peers2 ∧ st3.top.peers2_6 = st.top.peers2_6 := by
  cases hr : repair_resolve st f with
  | exit_failure s => simp [hr, Outcome.bind] at h
  | undefined => simp [hr, Outcome.bind] at h
  | returned fr =>
    simp only [hr, Outcome.bind, repair_probe] at h
    cases hc : check_uploaded_files env fr.st fr.full_path with
    | exit_failure s => simp [hc] at h
    | undefined => simp [hc] at h
    | returned st2 =>
      simp only [hc] at h
      obtain ⟨⟨n, hn, -⟩, -⟩ := repair_resolve_returned st f fr hr
      obtain ⟨p, -, hst2, -⟩ := check_uploaded_files_returned env fr.st st2 fr.full_path hc
      obtain ⟨sb, -, hsame, -⟩ := check_dates_returned env st2 st3 _ _ _ h
      have h2 : st2.top = fr.st.top := by rw [hst2, ftw_state]
      obtain ⟨-, -, hp, hp6, -⟩ := hsame
      rw [hp, hp6, h2, hn]
      exact ⟨rfl, rfl⟩

/-- C7. Peer invalidation condition: when `repair_resume_file` returns, `reset_peers`
was applied if and only if, at the decision, the repaired count is positive and
`make_changes` is set; then each peer list that was present is empty, and in every
other case both peer lists are what they were at the start (so without
`make_changes` they are never touched, whatever was repaired). -/
theorem c7_peer_invalidation_condition (env : Env) (st st1 : State) (f : CStr) (mc : Bool)
    (h : repair_resume_file env st f mc = Outcome.returned st1) :
    ∃ st3, (repair_resolve st f).bind (fun fr => repair_probe env fr mc) =
        Outcome.returned st3 ∧
      (st3.nb_repaired_inconsistencies > 0 ∧ mc = true →
        st1 = { st3 with top := reset_peers st3.top } ∧
          st1.top.peers2 = st.top.peers2.map (fun _ => []) ∧
          st1.top.peers2_6 = st.top.peers2_6.map (fun _ => [])) ∧
      (¬ (st3.nb_repaired_inconsistencies > 0 ∧ mc = true) →
        st1 = st3 ∧ st1.top.peers2 = st.top.peers2 ∧ st1.top.peers2_6 = st.top.peers2_6) := by
  unfold repair_resume_file at h
  cases hp : (repair_resolve st f).bind (fun fr => repair_probe env fr mc) with
  | exit_failure s =>
    cases hr : repair_resolve st f <;> simp_all [Outcome.bind]
  | undefined =>
    cases hr : repair_resolve st f <;> simp_all [Outcome.bind]
  | returned st3 =>
    obtain ⟨hp2, hp6⟩ := repair_probe_peers env st st3 f mc hp
    have h3 : (if st3.nb_repaired_inconsistencies > 0 ∧ mc = true then
        Outcome.returned { st3 with top := reset_peers st3.top }
        else Outcome.returned st3) = Outcome.returned st1 := by
      cases hr : repair_resolve st f with
      | exit_failure s => simp [hr, Outcome.bind] at hp
      | undefined => simp [hr, Outcome.bind] at hp
      | returned fr =>
        simp only [hr, Outcome.bind] at h hp
        simp only [hp] at h
        exact h
    refine ⟨st3, rfl, fun hc => ?_, fun hc => ?_⟩
    · simp only [hc, and_self, if_true, Outcome.returned.injEq] at h3
      subst h3
      refine ⟨rfl, ?_, ?_⟩
      · rw [← hp2]; exact (reset_peers_same st3.top).2.2.2.2.2.1
      · rw [← hp6]; exact (reset_peers_same st3.top).2.2.2.2.2.2
    · simp only [hc, if_false, Outcome.returned.injEq] at h3
      subst h3
      exact ⟨rfl, hp2, hp6⟩

/-- The example of C7: without `make_changes` the name is repaired (count 1) and the
six bytes of `peers2` are still there. -/
theorem c7_peer_invalidation_condition_witness :
    repair_resume_file example_env (initial_state wrong_top) foo_bar_resume false =
        Outcome.returned
          { top := { wrong_top with name := some "Foo.bar".toList }
            total_size := 1000
            nb_repaired_inconsistencies := 1 } ∧
      ∃ st3, (repair_resolve (initial_state wrong_top) foo_bar_resume).bind
          (fun fr => repair_probe example_env fr false) = Outcome.returned st3 ∧
        st3.top.peers2 = some [1, 2, 3, 4, 5, 6] := by
  have hrun : repair_resume_file example_env (initial_state wrong_top) foo_bar_resume false =
      Outcome.returned
        { top := { wrong_top with name := some "Foo.bar".toList }
          total_size := 1000
          nb_repaired_inconsistencies := 1 } := by decide
  obtain ⟨st3, h3, -, hno⟩ :=
    c7_peer_invalidation_condition example_env (initial_state wrong_top) _ foo_bar_resume
      false hrun
  refine ⟨hrun, st3, h3, ?_⟩
  obtain ⟨heq, -, -⟩ := hno (fun hc => Bool.noConfusion hc.2)
  rw [← heq]
  rfl

theorem main_decide_eq (st : State) (mc : Bool) :
    main_decide st mc =
      ProcessResult.EXIT_SUCCESS
        (if st.nb_repaired_inconsistencies > 0 ∧ mc = true then Decision.WriteBack st.top
          else Decision.NoChange) st := by
  unfold main_decide
  split <;> rfl

/-- A run of `main` that ends in success went through `main_decide`. -/
theorem main_success (env : Env) (top : tr_variant) (f : CStr) (mc : Bool)
    (replace : Option (CStr × CStr)) (d : Decision) (st : State)
    (h : main env top f mc replace = ProcessResult.EXIT_SUCCESS d st) :
    d = (if st.nb_repaired_inconsistencies > 0 ∧ mc = true then Decision.WriteBack st.top
      else Decision.NoChange) := by
  unfold main at h
  cases replace with
  | none =>
    simp only [] at h
    cases hr : repair_resume_file env (initial_state top) f mc with
    | exit_failure s => simp [hr] at h
    | undefined => simp [hr] at h
    | returned st1 =>
      simp only [hr, main_decide_eq, ProcessResult.EXIT_SUCCESS.injEq] at h
      rw [← h.2, ← h.1]
  | some r =>
    obtain ⟨old, new⟩ := r
    simp only [main_decide_eq, ProcessResult.EXIT_SUCCESS.injEq] at h
    rw [← h.2, ← h.1]

/-- C8. Write-back decision: a run of `main` that completes hands the record to
`tr_variantToFile` if and only if the repaired count is positive and `make_changes`
is set; otherwise the file remains untouched.  Without `make_changes` nothing is ever
written. -/
theorem c8_write_back_decision (env : Env) (top : tr_variant) (f : CStr) (mc : Bool)
    (replace : Option (CStr × CStr)) (d : Decision) (st : State)
    (h : main env top f mc replace = ProcessResult.EXIT_SUCCESS d st) :
    (d = Decision.WriteBack st.top ↔ st.nb_repaired_inconsistencies > 0 ∧ mc = true) ∧
      (d = Decision.NoChange ↔ ¬ (st.nb_repaired_inconsistencies > 0 ∧ mc = true)) ∧
      (mc = false → d = Decision.NoChange) ∧
      ((main env top f mc replace).written = some st.top ↔
        st.nb_repaired_inconsistencies > 0 ∧ mc = true) := by
  have hd := main_success env top f mc replace d st h
  rw [h]
  by_cases hc : st.nb_repaired_inconsistencies > 0 ∧ mc = true
  · simp only [hc, and_self, if_true] at hd
    subst hd
    simp [hc, ProcessResult.written]
  · simp only [hc, if_false] at hd
    subst hd
    simp only [hc, ProcessResult.written, iff_false, not_false_eq_true, iff_true, true_and,
      reduceCtorEq, and_true]
    intro hmc
    trivial

/-- The example of C8: with `make_changes` the repaired record is handed to
`tr_variantToFile`. -/
theorem c8_write_back_decision_witness :
    (main example_env wrong_top foo_bar_resume true none).written = some wrong_top_repaired :=
  (c8_write_back_decision example_env wrong_top foo_bar_resume true none
    (Decision.WriteBack wrong_top_repaired)
    { top := wrong_top_repaired, total_size := 1000, nb_repaired_inconsistencies := 3 }
    (by decide)).2.2.2.mpr ⟨by decide, rfl⟩

/-- C9. No write-back on a missing target: when the path resolved in
`repair_resume_file` (after a possible repair of the name) does not exist,
`check_uploaded_files` calls `exit (EXIT_FAILURE)`: the process ends in failure and
`tr_variantToFile` is never reached, whatever was repaired before and whatever
`make_changes` is. -/
theorem c9_absent_target_no_write_back (env : Env) (top : tr_variant) (f : CStr)
    (mc : Bool) (fr : RepairFrame)
    (hres : repair_resolve (initial_state top) f = Outcome.returned fr)
    (habs : is_file_or_dir_exists env fr.st fr.full_path = Outcome.returned 0) :
    check_uploaded_files env fr.st fr.full_path = Outcome.exit_failure fr.st ∧
      repair_resume_file env (initial_state top) f mc = Outcome.exit_failure fr.st ∧
      main env top f mc none = ProcessResult.EXIT_FAILURE fr.st ∧
      (main env top f mc none).written = none := by
  have hc : check_uploaded_files env fr.st fr.full_path = Outcome.exit_failure fr.st := by
    simp [check_uploaded_files, habs, Outcome.bind]
  have hr : repair_resume_file env (initial_state top) f mc = Outcome.exit_failure fr.st := by
    simp [repair_resume_file, repair_probe, hres, hc, Outcome.bind]
  have hm : main env top f mc none = ProcessResult.EXIT_FAILURE fr.st := by
    simp [main, hr]
  exact ⟨hc, hr, hm, by rw [hm]; rfl⟩

/-- The example of C9: the name was rewritten to `Foo.bar` and counted, changes are
allowed, `/data/Foo.bar` does not exist: failure, nothing written. -/
theorem c9_absent_target_no_write_back_witness :
    main empty_env wrong_top foo_bar_resume true none =
        ProcessResult.EXIT_FAILURE
          { top := { wrong_top with name := some "Foo.bar".toList }
            total_size := 0
            nb_repaired_inconsistencies := 1 } ∧
      (main empty_env wrong_top foo_bar_resume true none).written = none :=
  have h := c9_absent_target_no_write_back empty_env wrong_top foo_bar_resume true
    { st :=
        { top := { wrong_top with name := some "Foo.bar".toList }
          total_size := 0
          nb_repaired_inconsistencies := 1 }
      full_path := some "/data/Foo.bar".toList
      force_date_update := true }
    (by decide) (by decide)
  ⟨h.2.2.1, h.2.2.2⟩

/-- C10. Missing destination: `get_uploaded_files_path` prints its error and returns
(it does not exit), so `check_correct_files_pointed` still runs: for a record without
destination, or with an empty one, whose name is `Wrong`, the name is rewritten to
`Foo.bar` and the repaired count becomes 1 before the process fails at `stat`. -/
theorem c10_missing_destination_continues :
    get_uploaded_files_path (initial_state no_destination_top) none = Outcome.returned none ∧
      repair_resolve (initial_state no_destination_top) foo_bar_resume =
        Outcome.returned
          { st :=
              { top := { no_destination_top with name := some "Foo.bar".toList }
                total_size := 0
                nb_repaired_inconsistencies := 1 }
            full_path := none
            force_date_update := true } ∧
      main example_env no_destination_top foo_bar_resume true none =
        ProcessResult.EXIT_FAILURE
          { top := { no_destination_top with name := some "Foo.bar".toList }
            total_size := 0
            nb_repaired_inconsistencies := 1 } ∧
      main example_env empty_destination_top foo_bar_resume true none =
        ProcessResult.EXIT_FAILURE
          { top := { empty_destination_top with name := some "Foo.bar".toList }
            total_size := 0
            nb_repaired_inconsistencies := 1 } := by
  refine ⟨?_, ?_, ?_, ?_⟩ <;> decide

/-! ## A second session -/

/-- A session on a record whose name occurs in the storage filename, started with
no repair: the first part returns the state as it was, with the resolved path and
without `force_date_update`. -/
theorem repair_resolve_consistent (st : State) (f n : CStr)
    (hname : st.top.name = some n) (hsub : n <:+: f)
    (h0 : st.nb_repaired_inconsistencies = 0) :
    repair_resolve st f =
      Outcome.returned
        { st := st, full_path := resolved_path st.top, force_date_update := false } := by
  unfold repair_resolve
  rw [get_uploaded_files_path_resolved st n hname,
    check_correct_files_pointed_consistent st f n hname hsub]
  simp [Outcome.bind, h0]

/-- The second session after a write-back, C6 as amended: when `main` with
`make_changes` completed and wrote back the record `top1`, and the modification time
of the resolved path is settled (its local year exists and is not 1970), then a
second run of `main` on `top1` with the same storage filename and file system, with
or without `make_changes`, repairs nothing, changes no field and decides `NoChange`. -/
theorem c6_second_session_no_change (env : Env) (top top1 : tr_variant) (f : CStr)
    (st1 : State) (mc2 : Bool)
    (h1 : main env top f true none =
      ProcessResult.EXIT_SUCCESS (Decision.WriteBack top1) st1)
    (hm : ∀ sb, stat env (resolved_path top1) = StatResult.ok sb →
      date_settled env (some sb.st_mtime)) :
    main env top1 f mc2 none =
      ProcessResult.EXIT_SUCCESS Decision.NoChange
        { top := top1, total_size := st1.total_size, nb_repaired_inconsistencies := 0 } := by
  -- the first run
  have hd := main_success env top f true none _ _ h1
  unfold main at h1
  simp only [] at h1
  cases hr : repair_resume_file env (initial_state top) f true with
  | exit_failure s => simp [hr] at h1
  | undefined => simp [hr] at h1
  | returned st0 =>
    simp only [hr, main_decide_eq, ProcessResult.EXIT_SUCCESS.injEq] at h1
    obtain ⟨-, hst⟩ := h1
    subst hst
    have hpos : st0.nb_repaired_inconsistencies > 0 := by
      by_contra hneg
      simp [hneg] at hd
    simp only [hpos, and_self, if_true, Decision.WriteBack.injEq] at hd
    obtain ⟨fr, st2, st3, hres, hchk, hdat, hfin⟩ :=
      repair_resume_file_returned env _ _ f true hr
    obtain ⟨⟨n, hfrtop, hsub⟩, hpath, hts, -, -⟩ := repair_resolve_returned _ f fr hres
    obtain ⟨p, hp, hst2, hany⟩ := check_uploaded_files_returned env fr.st st2 fr.full_path hchk
    obtain ⟨sb, hstat, hsame, hts3, hnb3, -, hsettled⟩ :=
      check_dates_returned env st2 st3 _ _ _ hdat
    have hst2top : st2.top = fr.st.top := by rw [hst2, ftw_state]
    have hpos3 : st3.nb_repaired_inconsistencies > 0 := by
      by_cases hc : st3.nb_repaired_inconsistencies > 0
      · exact hc
      · simp only [hc, false_and, if_false] at hfin
        rw [hfin] at hpos
        exact absurd hpos hc
    simp only [hpos3, and_self, if_true] at hfin
    have htop1 : top1 = reset_peers st3.top := by rw [hd, hfin]
    obtain ⟨r1, r2, r3, r4, -, -, -⟩ := reset_peers_same st3.top
    have hname1 : top1.name = some n := by
      rw [htop1, r2, hsame.2.1, hst2top, hfrtop]
    have hdest1 : top1.destination = fr.st.top.destination := by
      rw [htop1, r1, hsame.1, hst2top]
    have hname_fr : fr.st.top.name = some n := by rw [hfrtop]
    have hpath1 : resolved_path top1 = fr.full_path := by
      rw [hpath]
      unfold resolved_path
      rw [hname1, hdest1, hname_fr]
    have hset := hsettled rfl (hm sb (by rw [hpath1]; exact hstat))
    -- the second run
    have hres2 := repair_resolve_consistent (initial_state top1) f n hname1 hsub rfl
    have hchk2 := hany (initial_state top1)
    have hts0 : fr.st.total_size = 0 := hts
    have hst2b : (ftw env (initial_state top1) p).1 =
        { top := top1, total_size := st0.total_size, nb_repaired_inconsistencies := 0 } := by
      have e1 : st0.total_size = st2.total_size := by rw [hfin]; exact hts3
      rw [e1, hst2, ftw_state, ftw_state, hts0]
      rfl
    rw [hst2b] at hchk2
    have hdat2 := check_dates_settled env
      { top := top1, total_size := st0.total_size, nb_repaired_inconsistencies := 0 }
      fr.full_path sb mc2 hstat
      (by show date_settled env top1.added_date; rw [htop1, r3]; exact hset.1)
      (by show date_settled env top1.done_date; rw [htop1, r4]; exact hset.2)
    have hrun2 : repair_resume_file env (initial_state top1) f mc2 =
        Outcome.returned
          { top := top1, total_size := st0.total_size, nb_repaired_inconsistencies := 0 } := by
      unfold repair_resume_file repair_probe
      rw [hres2]
      simp only [Outcome.bind, initial_state]
      rw [hpath1]
      simp only [initial_state] at hchk2
      rw [hchk2]
      simp only []
      rw [hdat2]
      simp
    unfold main
    simp only [hrun2, main_decide_eq]
    simp

/-- The example of C6 as amended: `/data/Foo.bar` was modified in 2017; the first
run repairs the name, both dates and the peers and writes back, the second run
leaves the file untouched. -/
theorem c6_second_session_no_change_witness :
    main example_env wrong_top foo_bar_resume true none =
        ProcessResult.EXIT_SUCCESS (Decision.WriteBack wrong_top_repaired)
          { top := wrong_top_repaired, total_size := 1000, nb_repaired_inconsistencies := 3 } ∧
      main example_env wrong_top_repaired foo_bar_resume true none =
        ProcessResult.EXIT_SUCCESS Decision.NoChange
          { top := wrong_top_repaired, total_size := 1000, nb_repaired_inconsistencies := 0 } :=
  have hrun : main example_env wrong_top foo_bar_resume true none =
      ProcessResult.EXIT_SUCCESS (Decision.WriteBack wrong_top_repaired)
        { top := wrong_top_repaired, total_size := 1000, nb_repaired_inconsistencies := 3 } := by
    decide
  ⟨hrun, c6_second_session_no_change example_env wrong_top wrong_top_repaired foo_bar_resume
    _ true hrun (by
      intro sb hs
      have h0 : stat example_env (resolved_path wrong_top_repaired) =
          StatResult.ok
            { st_mode := FileType.S_IFREG, st_size := 1000, st_mtime := 1500000000 } := by
        decide
      rw [h0] at hs
      obtain rfl := StatResult.ok.inj hs
      intro v hv
      obtain rfl := Option.some.inj hv
      exact ⟨{ tm_year := 117 }, by decide, by decide⟩)⟩

/-- C6 as stated fails when the file itself was last modified in the local year
1970: the first run replaces the added date 0 by the modification time 100 and writes
back; the second run finds the year 1970 again, counts one repair and writes back
again. -/
theorem c6_counterexample :
    main epoch_env zero_date_top foo_bar_resume true none =
        ProcessResult.EXIT_SUCCESS (Decision.WriteBack zero_date_repaired)
          { top := zero_date_repaired, total_size := 1000, nb_repaired_inconsistencies := 1 } ∧
      main epoch_env zero_date_repaired foo_bar_resume true none =
        ProcessResult.EXIT_SUCCESS (Decision.WriteBack zero_date_repaired)
          { top := zero_date_repaired, total_size := 1000, nb_repaired_inconsistencies := 1 } := by
  constructor <;> decide

/-! ## The path resolver and the directory rewriter -/

/-- C11. Path resolution: for a record whose destination `d` is present and not empty
and whose name `n` is present, `get_uploaded_files_path` returns exactly
`d ++ "/" ++ n`, whatever `*full_path` held before; the function only reads the
record (its result is the path alone). -/
theorem c11_path_resolution (st : State) (d n : CStr) (full_path : Option CStr)
    (hd : st.top.destination = some d) (hne : d ≠ []) (hn : st.top.name = some n) :
    get_uploaded_files_path st full_path = Outcome.returned (some (d ++ ['/'] ++ n)) := by
  unfold get_uploaded_files_path
  cases d with
  | nil => exact absurd rfl hne
  | cons c cs => simp [hd, hn]

/-- The example of C11: `/data` and `movie.mkv` give `/data/movie.mkv`. -/
theorem c11_path_resolution_witness :
    get_uploaded_files_path (initial_state movie_top) none =
      Outcome.returned (some "/data/movie.mkv".toList) :=
  c11_path_resolution (initial_state movie_top) "/data".toList "movie.mkv".toList none
    rfl (by decide) rfl

/-- Where `strstr` finds the needle: the haystack splits there, and no split of the
haystack around the needle starts earlier. -/
theorem strstr_eq_some (hay needle : CStr) :
    ∀ i, strstr hay needle = some i →
      hay = hay.take i ++ needle ++ hay.drop (i + needle.length) ∧
        ∀ pre suf, hay = pre ++ needle ++ suf → i ≤ pre.length := by
  induction hay with
  | nil =>
    intro i h
    by_cases hn : needle = []
    · simp only [strstr, hn, if_true, Option.some.injEq] at h
      subst h
      subst hn
      exact ⟨rfl, fun _ _ _ => Nat.zero_le _⟩
    · simp [strstr, hn] at h
  | cons c hay ih =>
    intro i h
    by_cases hp : needle.isPrefixOf (c :: hay) = true
    · simp only [strstr, hp, if_true, Option.some.injEq] at h
      subst h
      obtain ⟨t, ht⟩ := List.isPrefixOf_iff_prefix.mp hp
      refine ⟨?_, fun _ _ _ => Nat.zero_le _⟩
      rw [← ht]
      simp
    · simp only [strstr, hp, Bool.false_eq_true, if_false, Option.map_eq_some'] at h
      obtain ⟨j, hj, rfl⟩ := h
      obtain ⟨hsplit, hmin⟩ := ih j hj
      refine ⟨?_, ?_⟩
      · have e : j + 1 + needle.length = (j + needle.length) + 1 := by omega
        rw [e, List.take_succ_cons, List.drop_succ_cons, List.cons_append, List.cons_append]
        exact congrArg (List.cons c) hsplit
      · intro pre suf hps
        cases pre with
        | nil =>
          exfalso
          apply hp
          rw [List.isPrefixOf_iff_prefix]
          exact ⟨suf, by simpa using hps.symm⟩
        | cons a pre =>
          rw [List.cons_append, List.cons_append] at hps
          have := hmin pre suf (List.cons.inj hps).2
          simpa using this

/-- C12. Directory rewrite splice: when the destination `d` is not empty and splits as
`pre ++ old ++ suf` with `pre` the text before the first occurrence of `old`,
`replace_dir` returns the record with the destination `pre ++ new ++ suf` and every
other field as it was, and the repaired count grown by exactly one. -/
theorem c12_replace_dir_splice (st : State) (d pre old new suf : CStr)
    (hd : st.top.destination = some d) (hne : d ≠ [])
    (hsplit : d = pre ++ old ++ suf)
    (hfirst : ∀ pre1 suf1, d = pre1 ++ old ++ suf1 → pre.length ≤ pre1.length) :
    replace_dir st old new =
      { st with
        top := { st.top with destination := some (pre ++ new ++ suf) }
        nb_repaired_inconsistencies := st.nb_repaired_inconsistencies + 1 } := by
  have hinf : old <:+: d := ⟨pre, suf, hsplit.symm⟩
  have hsome := (strstr_isSome_iff d old).mpr hinf
  obtain ⟨i, hi⟩ := Option.isSome_iff_exists.mp hsome
  obtain ⟨hs, hmin⟩ := strstr_eq_some d old i hi
  have hle1 : i ≤ pre.length := hmin pre suf hsplit
  have hle2 : pre.length ≤ i := by
    have := hfirst _ _ hs
    have hlen : i ≤ d.length := by
      have h1 := congrArg List.length hsplit
      simp at h1
      omega
    simpa [List.length_take, Nat.min_eq_left hlen] using this
  have hieq : i = pre.length := le_antisymm hle1 hle2
  have htake : d.take i = pre := by
    rw [hieq, hsplit, List.append_assoc, List.take_left]
  have hdrop : d.drop (i + old.length) = suf := by
    rw [hieq, hsplit, ← List.length_append, List.drop_left]
  unfold replace_dir
  cases d with
  | nil => exact absurd rfl hne
  | cons c cs =>
    simp only [findStr_destination, hd, hi, addStr_destination, htake, hdrop]

/-- The example of C12: in `/data/old/content`, `old` replaced by `new2` gives
`/data/new2/content`. -/
theorem c12_replace_dir_splice_witness :
    replace_dir (initial_state old_dir_top) "old".toList "new2".toList =
      { top := { old_dir_top with destination := some "/data/new2/content".toList }
        total_size := 0
        nb_repaired_inconsistencies := 1 } :=
  c12_replace_dir_splice (initial_state old_dir_top) "/data/old/content".toList
    "/data/".toList "old".toList "new2".toList "/content".toList rfl (by decide) (by decide)
    (by
      intro pre1 suf1 h
      have h6 : ∀ k, k < 6 → ¬ "old".toList <+: "/data/old/content".toList.drop k := by
        decide
      by_contra hc
      have hlt : pre1.length < 6 := by simpa using hc
      apply h6 pre1.length hlt
      refine ⟨suf1, ?_⟩
      rw [h, List.append_assoc, List.drop_left])

/-- C13. Directory rewrite, substring not found: when `old` does not occur in the
non-empty destination, `replace_dir` returns the state as it was (every field of the
record and the repaired count), and `main` ends in success with the file untouched. -/
theorem c13_replace_dir_not_found (env : Env) (st : State) (d old new f : CStr)
    (mc : Bool) (hd : st.top.destination = some d) (hne : d ≠ [])
    (hno : ¬ old <:+: d) :
    replace_dir st old new = st ∧
      main env st.top f mc (some (old, new)) =
        ProcessResult.EXIT_SUCCESS Decision.NoChange (initial_state st.top) := by
  have hnone : strstr d old = none := by
    cases hs : strstr d old with
    | none => rfl
    | some i =>
      exact absurd ((strstr_isSome_iff d old).mp (by rw [hs]; rfl)) hno
  have hrep : ∀ s : State, s.top.destination = some d → replace_dir s old new = s := by
    intro s hsd
    unfold replace_dir
    cases d with
    | nil => exact absurd rfl hne
    | cons c cs => simp only [findStr_destination, hsd, hnone]
  refine ⟨hrep st hd, ?_⟩
  unfold main
  simp only []
  rw [hrep (initial_state st.top) hd, main_decide_eq]
  simp [initial_state]

/-- The example of C13: `zzz` does not occur in `/data/old/content`. -/
theorem c13_replace_dir_not_found_witness :
    main example_env old_dir_top foo_bar_resume true (some ("zzz".toList, "new2".toList)) =
      ProcessResult.EXIT_SUCCESS Decision.NoChange (initial_state old_dir_top) :=
  (c13_replace_dir_not_found example_env (initial_state old_dir_top)
    "/data/old/content".toList "zzz".toList "new2".toList foo_bar_resume true rfl
    (by decide) (by decide)).2

/-- C14. Peer invalidation effect: after `reset_peers` each of `peers2` and `peers2_6`
that was present is present and empty, each that was absent is absent, and every
other field of the record is what it was. -/
theorem c14_reset_peers_effect (top : tr_variant) :
    (∀ b, top.peers2 = some b → (reset_peers top).peers2 = some []) ∧
      (top.peers2 = none → (reset_peers top).peers2 = none) ∧
      (∀ b, top.peers2_6 = some b → (reset_peers top).peers2_6 = some []) ∧
      (top.peers2_6 = none → (reset_peers top).peers2_6 = none) ∧
      (reset_peers top).destination = top.destination ∧
      (reset_peers top).name = top.name ∧
      (reset_peers top).added_date = top.added_date ∧
      (reset_peers top).done_date = top.done_date ∧
      (reset_peers top).others = top.others := by
  obtain ⟨h1, h2, h3, h4, h5, h6, h7⟩ := reset_peers_same top
  refine ⟨?_, ?_, ?_, ?_, h1, h2, h3, h4, h5⟩
  · intro b hb; rw [h6, hb]; rfl
  · intro hb; rw [h6, hb]; rfl
  · intro b hb; rw [h7, hb]; rfl
  · intro hb; rw [h7, hb]; rfl

/-! ## Both dates in one pass -/

theorem date_step_spec (env : Env) (st : State) (nm : String) (key : IntKey) (r : Int)
    (force mc : Bool)
    (hl : ∀ v, tr_variantDictFindInt st.top key = some v → env.localtime v ≠ none) :
    date_step env st nm key r force mc =
      Outcome.returned
        (match (spec_date_rule env (tr_variantDictFindInt st.top key) r force mc).1,
            (spec_date_rule env (tr_variantDictFindInt st.top key) r force mc).2 with
          | some v, 1 =>
            { st with
              top := tr_variantDictAddInt st.top key v
              nb_repaired_inconsistencies := st.nb_repaired_inconsistencies + 1 }
          | _, _ => st) := by
  unfold date_step spec_date_rule
  cases hf : tr_variantDictFindInt st.top key with
  | none => rfl
  | some old =>
    cases hlt : env.localtime old with
    | none => exact absurd hlt (hl old hf)
    | some instant =>
      simp only []
      rw [update_dates_eq env st nm key old r force mc instant hlt]
      by_cases h1 : instant.tm_year + 1900 = 1970 <;> cases force <;> cases mc <;>
        simp [h1, hlt]

/-- Both dates where `localtime` delivers: when `stat` delivers the modification time
and `localtime` delivers for each date that is present, `check_dates` returns the
record in which `added_date` and `done_date` are each what the date rule makes of that
field alone (an absent field stays absent), with the same reference time, and the
repaired count grown by the number of fields overwritten. -/
theorem check_dates_spec (env : Env) (st : State) (path : Option CStr) (sb : Stat)
    (force mc : Bool) (hs : stat env path = StatResult.ok sb)
    (ha : ∀ v, st.top.added_date = some v → env.localtime v ≠ none)
    (hd : ∀ v, st.top.done_date = some v → env.localtime v ≠ none) :
    check_dates env st path force mc =
      Outcome.returned
        { st with
          top :=
            { st.top with
              added_date := (spec_date_rule env st.top.added_date sb.st_mtime force mc).1
              done_date := (spec_date_rule env st.top.done_date sb.st_mtime force mc).1 }
          nb_repaired_inconsistencies :=
            st.nb_repaired_inconsistencies +
              (spec_date_rule env st.top.added_date sb.st_mtime force mc).2 +
              (spec_date_rule env st.top.done_date sb.st_mtime force mc).2 } := by
  rw [check_dates_eq, hs]
  simp only []
  rw [date_step_spec env st _ IntKey.TR_KEY_added_date _ _ _ ha]
  simp only [Outcome.bind, findInt_added_date]
  have hsplitA : ∀ x : Option Int × Nat,
      x = spec_date_rule env st.top.added_date sb.st_mtime force mc →
      (x = (none, 0) ∧ st.top.added_date = none) ∨
        (∃ v, x = (some v, 0) ∧ st.top.added_date = some v) ∨
        (x = (some sb.st_mtime, 1) ∧ st.top.added_date ≠ none) := by
    intro x hx
    unfold spec_date_rule at hx
    cases hA : st.top.added_date with
    | none => left; simp [hx, hA]
    | some a =>
      right
      simp only [hA] at hx
      split at hx
      · right; exact ⟨hx, by simp⟩
      · left; exact ⟨a, hx, rfl⟩
  have hsplitD : ∀ (top : tr_variant) (x : Option Int × Nat),
      x = spec_date_rule env top.done_date sb.st_mtime force mc →
      (x = (none, 0) ∧ top.done_date = none) ∨
        (∃ v, x = (some v, 0) ∧ top.done_date = some v) ∨
        (x = (some sb.st_mtime, 1) ∧ top.done_date ≠ none) := by
    intro top x hx
    unfold spec_date_rule at hx
    cases hD : top.done_date with
    | none => left; simp [hx, hD]
    | some a =>
      right
      simp only [hD] at hx
      split at hx
      · right; exact ⟨hx, by simp⟩
      · left; exact ⟨a, hx, rfl⟩
  have hstate : ∀ s : State, s.top.done_date = st.top.done_date →
      date_step env s "done" IntKey.TR_KEY_done_date sb.st_mtime force mc =
        Outcome.returned
          { s with
            top :=
              { s.top with
                done_date := (spec_date_rule env st.top.done_date sb.st_mtime force mc).1 }
            nb_repaired_inconsistencies :=
              s.nb_repaired_inconsistencies +
                (spec_date_rule env st.top.done_date sb.st_mtime force mc).2 } := by
    intro s hsd
    rw [date_step_spec env s _ IntKey.TR_KEY_done_date _ _ _
      (by intro v hv; simp only [findInt_done_date] at hv; rw [hsd] at hv; exact hd v hv)]
    simp only [findInt_done_date, hsd]
    rcases hsplitD st.top _ rfl with ⟨hx, h0⟩ | ⟨v, hx, h0⟩ | ⟨hx, h0⟩
    · rw [hx]
      cases s with
      | mk top ts nb =>
        cases top
        simp_all
    · rw [hx]
      cases s with
      | mk top ts nb =>
        cases top
        simp_all
    · rw [hx]
      rfl
  rcases hsplitA _ rfl with ⟨hx, h0⟩ | ⟨v, hx, h0⟩ | ⟨hx, h0⟩
  · rw [hx]
    simp only []
    rw [hstate st rfl]
    cases st with
    | mk top ts nb =>
      cases top
      simp_all
  · rw [hx]
    simp only []
    rw [hstate st rfl]
    cases st with
    | mk top ts nb =>
      cases top
      simp_all
  · rw [hx]
    simp only []
    rw [hstate
      { st with
        top := tr_variantDictAddInt st.top IntKey.TR_KEY_added_date sb.st_mtime
        nb_repaired_inconsistencies := st.nb_repaired_inconsistencies + 1 } rfl]
    rfl

/-- An example of both dates in one pass: both lie in 1970, changes are allowed: both
are replaced by the modification time 100 and the count grows by two. -/
theorem check_dates_spec_example :
    check_dates epoch_env (initial_state both_dates_zero_top) (some "/data/Foo.bar".toList)
        false true =
      Outcome.returned
        { top := { both_dates_zero_top with added_date := some 100, done_date := some 100 }
          total_size := 0
          nb_repaired_inconsistencies := 2 } :=
  check_dates_spec epoch_env (initial_state both_dates_zero_top)
    (some "/data/Foo.bar".toList)
    { st_mode := FileType.S_IFREG, st_size := 1000, st_mtime := 100 } false true
    (by decide)
    (by intro v hv; cases hv; decide)
    (by intro v hv; cases hv; decide)

/-- C15. A date without local time blocks the other date: with an added date of
`2 ^ 62` (`localtime` returns NULL) and a done date of 0, `check_dates` with
`make_changes` dereferences NULL on the added date and never reaches the done date,
while the same done date next to an added date of the year 2016 is replaced by the
modification time and counted: the outcome for `done_date` depends on the value of
`added_date`. -/
theorem c15_unrepresentable_date_blocks_other :
    check_dates example_env (initial_state huge_added_date_top)
        (some "/data/Foo.bar".toList) false true = Outcome.undefined ∧
      check_dates example_env
          (initial_state { huge_added_date_top with added_date := some 1477800000 })
          (some "/data/Foo.bar".toList) false true =
        Outcome.returned
          { top :=
              { huge_added_date_top with
                added_date := some 1477800000, done_date := some 1500000000 }
            total_size := 0
            nb_repaired_inconsistencies := 1 } := by
  constructor <;> decide

/-! ## Invariant and frame of the repair session -/

theorem is_file_or_dir_exists_state (env : Env) (s s1 : State) (path : Option CStr) (r : Nat)
    (h : is_file_or_dir_exists env s path = Outcome.returned r) :
    is_file_or_dir_exists env s1 path = Outcome.returned r := by
  unfold is_file_or_dir_exists at h ⊢
  cases hs : stat env path with
  | ENOENT => simpa [hs] using h
  | error => simp [hs] at h
  | ok info =>
    simp only [hs] at h ⊢
    cases hm : info.st_mode <;> simpa [hm] using h

theorem check_uploaded_files_exists (env : Env) (st st2 : State) (path : Option CStr)
    (h : check_uploaded_files env st path = Outcome.returned st2) :
    ∃ r, is_file_or_dir_exists env st path = Outcome.returned r ∧ r > 0 := by
  unfold check_uploaded_files at h
  cases hr : is_file_or_dir_exists env st path with
  | exit_failure s => simp [hr, Outcome.bind] at h
  | undefined => simp [hr, Outcome.bind] at h
  | returned r =>
    refine ⟨r, rfl, ?_⟩
    by_contra hc
    simp [hr, Outcome.bind, hc] at h

theorem resolved_path_some (top : tr_variant) (p : CStr) (h : resolved_path top = some p) :
    ∃ d n, top.destination = some d ∧ d ≠ [] ∧ top.name = some n ∧ p = d ++ ['/'] ++ n := by
  unfold resolved_path at h
  rcases hd : top.destination with _ | ⟨_ | ⟨c, cs⟩⟩ <;> rcases hn : top.name with _ | n <;>
    simp [hd, hn] at h
  exact ⟨c :: cs, n, rfl, by simp, rfl, by simp [← h]⟩

/-- The record at the end of a session that returns: destination and name are those
after the name check, and so are all fields but the dates and the peers. -/
theorem repair_resume_file_top (env : Env) (st st1 : State) (f : CStr) (mc : Bool)
    (h : repair_resume_file env st f mc = Outcome.returned st1) :
    ∃ fr st2 st3, repair_resolve st f = Outcome.returned fr ∧
      check_uploaded_files env fr.st fr.full_path = Outcome.returned st2 ∧
      check_dates env st2 fr.full_path fr.force_date_update mc = Outcome.returned st3 ∧
      st2.top = fr.st.top ∧
      st1.top.destination = fr.st.top.destination ∧ st1.top.name = fr.st.top.name ∧
      st1.top.others = fr.st.top.others ∧
      (mc = false → st1 = st2) := by
  obtain ⟨fr, st2, st3, hres, hchk, hdat, hfin⟩ := repair_resume_file_returned env st st1 f mc h
  obtain ⟨p, -, hst2, -⟩ := check_uploaded_files_returned env fr.st st2 fr.full_path hchk
  obtain ⟨sb, -, hsame, -, -, hmc, -⟩ := check_dates_returned env st2 st3 _ _ _ hdat
  have hst2top : st2.top = fr.st.top := by rw [hst2, ftw_state]
  obtain ⟨r1, r2, -, -, r5, -, -⟩ := reset_peers_same st3.top
  refine ⟨fr, st2, st3, hres, hchk, hdat, hst2top, ?_, ?_, ?_, ?_⟩
  · rw [hfin, ← hst2top, ← hsame.1]
    split
    · exact r1
    · rfl
  · rw [hfin, ← hst2top, ← hsame.2.1]
    split
    · exact r2
    · rfl
  · rw [hfin, ← hst2top, ← hsame.2.2.2.2]
    split
    · exact r5
    · rfl
  · intro hf
    rw [hfin, hmc hf]
    simp [hf]

/-- C16. Post-session consistency: when `repair_resume_file` returns, the record has a
non-empty destination `d` and a name `n` such that `n` occurs in the storage filename
and `is_file_or_dir_exists` finds the path `d ++ "/" ++ n` (its result is positive). -/
theorem c16_post_session_consistent (env : Env) (st st1 : State) (f : CStr) (mc : Bool)
    (h : repair_resume_file env st f mc = Outcome.returned st1) :
    ∃ d n, st1.top.destination = some d ∧ d ≠ [] ∧ st1.top.name = some n ∧ n <:+: f ∧
      ∃ r, is_file_or_dir_exists env st1 (some (d ++ ['/'] ++ n)) = Outcome.returned r ∧
        r > 0 := by
  obtain ⟨fr, st2, st3, hres, hchk, -, -, hdest, hname, -, -⟩ :=
    repair_resume_file_top env st st1 f mc h
  obtain ⟨⟨n, hfrtop, hsub⟩, hpath, -⟩ := repair_resolve_returned st f fr hres
  obtain ⟨p, hp, -, -⟩ := check_uploaded_files_returned env fr.st st2 fr.full_path hchk
  obtain ⟨r, hr, hpos⟩ := check_uploaded_files_exists env fr.st st2 fr.full_path hchk
  rw [hp] at hpath
  obtain ⟨d, n1, hd, hne, hn1, hpeq⟩ := resolved_path_some fr.st.top p hpath.symm
  have hnn : n1 = n := by
    rw [hfrtop] at hn1
    exact (Option.some.inj hn1).symm
  subst hnn
  refine ⟨d, n1, by rw [hdest, hd], hne, by rw [hname, hn1], hsub, r, ?_, hpos⟩
  rw [← hpeq, ← hp]
  exact is_file_or_dir_exists_state env fr.st st1 fr.full_path r hr

/-- The example of C16: after the session on `wrong_top` the name is `Foo.bar`, which
occurs in the storage filename, and `/data/Foo.bar` is a regular file. -/
theorem c16_post_session_consistent_witness :
    ∃ d n, wrong_top_repaired.destination = some d ∧ d ≠ [] ∧
      wrong_top_repaired.name = some n ∧ n <:+: foo_bar_resume ∧
      ∃ r, is_file_or_dir_exists example_env
          { top := wrong_top_repaired, total_size := 1000, nb_repaired_inconsistencies := 3 }
          (some (d ++ ['/'] ++ n)) = Outcome.returned r ∧ r > 0 :=
  c16_post_session_consistent example_env (initial_state wrong_top)
    { top := wrong_top_repaired, total_size := 1000, nb_repaired_inconsistencies := 3 }
    foo_bar_resume true (by decide)

theorem date_step_no_exit (env : Env) (st s : State) (nm : String) (key : IntKey) (r : Int)
    (force mc : Bool) : date_step env st nm key r force mc ≠ Outcome.exit_failure s := by
  unfold date_step update_dates
  intro h
  split at h
  · split at h
    · exact Outcome.noConfusion h
    · split at h
      · split at h <;> exact Outcome.noConfusion h
      · exact Outcome.noConfusion h
  · exact Outcome.noConfusion h

/-- The state in which a session ends by `exit (EXIT_FAILURE)`: the record is as
loaded, or as loaded with the name rewritten. -/
theorem repair_resume_file_exit (env : Env) (st s : State) (f : CStr) (mc : Bool)
    (h : repair_resume_file env st f mc = Outcome.exit_failure s) :
    s.top = st.top ∨ ∃ n, s.top = { st.top with name := some n } := by
  unfold repair_resume_file at h
  cases hr : repair_resolve st f with
  | undefined => simp [hr, Outcome.bind] at h
  | exit_failure s0 =>
    simp only [hr, Outcome.bind, Outcome.exit_failure.injEq] at h
    subst h
    left
    unfold repair_resolve at hr
    cases hg : get_uploaded_files_path st none with
    | undefined => simp [hg, Outcome.bind] at hr
    | exit_failure s1 =>
      simp only [hg, Outcome.bind, Outcome.exit_failure.injEq] at hr
      subst hr
      unfold get_uploaded_files_path at hg
      split at hg
      · split at hg
        · exact Outcome.noConfusion hg
        · rw [← Outcome.exit_failure.inj hg]
      · exact Outcome.noConfusion hg
    | returned fp =>
      simp only [hg, Outcome.bind] at hr
      cases hn : st.top.name with
      | none => simp [check_correct_files_pointed, hn] at hr
      | some n =>
        by_cases hsub : n <:+: f
        · rw [check_correct_files_pointed_consistent st f n hn hsub] at hr
          simp only [] at hr
          split at hr
          · obtain ⟨q, hq⟩ := get_uploaded_files_path_named st n fp hn
            simp [hq] at hr
          · exact Outcome.noConfusion hr
        · rw [check_correct_files_pointed_mismatch st f n hn hsub] at hr
          cases hx : regexec f with
          | none =>
            simp only [hx, Outcome.exit_failure.injEq] at hr
            rw [← hr]
          | some start =>
            simp only [hx] at hr
            split at hr
            · obtain ⟨q, hq⟩ := get_uploaded_files_path_named
                { st with
                  top := { st.top with name := some (f.take start) }
                  nb_repaired_inconsistencies := st.nb_repaired_inconsistencies + 1 }
                (f.take start) fp rfl
              simp [hq] at hr
            · exact Outcome.noConfusion hr
  | returned fr =>
    obtain ⟨⟨n, hfrtop, -⟩, -⟩ := repair_resolve_returned st f fr hr
    right
    refine ⟨n, ?_⟩
    rw [← hfrtop]
    simp only [hr, Outcome.bind, repair_probe] at h
    cases hc : check_uploaded_files env fr.st fr.full_path with
    | undefined => simp [hc] at h
    | exit_failure s2 =>
      simp only [hc, Outcome.exit_failure.injEq] at h
      subst h
      unfold check_uploaded_files at hc
      cases hi : is_file_or_dir_exists env fr.st fr.full_path with
      | undefined => simp [hi, Outcome.bind] at hc
      | exit_failure s3 =>
        simp only [hi, Outcome.bind, Outcome.exit_failure.injEq] at hc
        subst hc
        unfold is_file_or_dir_exists at hi
        split at hi
        · exact Outcome.noConfusion hi
        · rw [← Outcome.exit_failure.inj hi]
        · split at hi <;> exact Outcome.noConfusion hi
      | returned r =>
        simp only [hi, Outcome.bind] at hc
        split at hc
        · split at hc
          · exact Outcome.noConfusion hc
          · split at hc <;> exact Outcome.noConfusion hc
        · rw [← Outcome.exit_failure.inj hc]
    | returned st2 =>
      obtain ⟨p, -, hst2, -⟩ := check_uploaded_files_returned env fr.st st2 fr.full_path hc
      have hst2top : st2.top = fr.st.top := by rw [hst2, ftw_state]
      simp only [hc] at h
      cases hd : check_dates env st2 fr.full_path fr.force_date_update mc with
      | undefined => simp [hd] at h
      | returned st3 =>
        simp only [hd] at h
        split at h <;> exact Outcome.noConfusion h
      | exit_failure s4 =>
        simp only [hd, Outcome.exit_failure.injEq] at h
        subst h
        rw [check_dates_eq] at hd
        cases hs : stat env fr.full_path with
        | ENOENT =>
          simp only [hs, Outcome.exit_failure.injEq] at hd
          rw [← hd, hst2top]
        | error =>
          simp only [hs, Outcome.exit_failure.injEq] at hd
          rw [← hd, hst2top]
        | ok sb =>
          simp only [hs] at hd
          cases h1 : date_step env st2 "added" IntKey.TR_KEY_added_date sb.st_mtime
            fr.force_date_update mc with
          | undefined => simp [h1, Outcome.bind] at hd
          | exit_failure s5 => exact absurd h1 (date_step_no_exit _ _ _ _ _ _ _ _)
          | returned s5 =>
            simp only [h1, Outcome.bind] at hd
            exact absurd hd (date_step_no_exit _ _ _ _ _ _ _ _)

/-- C17. Frame of the repair session: however `repair_resume_file` ends (it returns or
it calls `exit`), the destination and every key the session does not know are what
they were at the start, and without `make_changes` the two dates and the two peer
lists are what they were as well. -/
theorem c17_session_frame (env : Env) (st st1 : State) (f : CStr) (mc : Bool)
    (h : repair_resume_file env st f mc = Outcome.returned st1 ∨
      repair_resume_file env st f mc = Outcome.exit_failure st1) :
    st1.top.destination = st.top.destination ∧ st1.top.others = st.top.others ∧
      (mc = false →
        st1.top.added_date = st.top.added_date ∧ st1.top.done_date = st.top.done_date ∧
          st1.top.peers2 = st.top.peers2 ∧ st1.top.peers2_6 = st.top.peers2_6) := by
  rcases h with h | h
  · obtain ⟨fr, st2, st3, hres, -, -, hst2, hdest, -, hoth, hmc⟩ :=
      repair_resume_file_top env st st1 f mc h
    obtain ⟨⟨n, hfrtop, -⟩, -⟩ := repair_resolve_returned st f fr hres
    refine ⟨by rw [hdest, hfrtop], by rw [hoth, hfrtop], fun hf => ?_⟩
    rw [hmc hf, hst2, hfrtop]
    exact ⟨rfl, rfl, rfl, rfl⟩
  · rcases repair_resume_file_exit env st st1 f mc h with he | ⟨n, he⟩
    · rw [he]
      exact ⟨rfl, rfl, fun _ => ⟨rfl, rfl, rfl, rfl⟩⟩
    · rw [he]
      exact ⟨rfl, rfl, fun _ => ⟨rfl, rfl, rfl, rfl⟩⟩

/-- The example of C17: without `make_changes` the session on `wrong_top` rewrites the
name only. -/
theorem c17_session_frame_witness :
    repair_resume_file example_env (initial_state wrong_top) foo_bar_resume false =
        Outcome.returned
          { top := wrong_top_renamed, total_size := 1000, nb_repaired_inconsistencies := 1 } ∧
      wrong_top_renamed.destination = wrong_top.destination ∧
      wrong_top_renamed.others = wrong_top.others ∧
      wrong_top_renamed.added_date = wrong_top.added_date ∧
      wrong_top_renamed.done_date = wrong_top.done_date ∧
      wrong_top_renamed.peers2 = wrong_top.peers2 ∧
      wrong_top_renamed.peers2_6 = wrong_top.peers2_6 :=
  have hrun : repair_resume_file example_env (initial_state wrong_top) foo_bar_resume false =
      Outcome.returned
        { top := wrong_top_renamed, total_size := 1000, nb_repaired_inconsistencies := 1 } := by
    decide
  have h := c17_session_frame example_env (initial_state wrong_top)
    { top := wrong_top_renamed, total_size := 1000, nb_repaired_inconsistencies := 1 }
    foo_bar_resume false (Or.inl hrun)
  ⟨hrun, h.1, h.2.1, h.2.2 rfl⟩

/-! ## The name checker and the shape of the storage filename -/

theorem short_hash_not_convention : ¬ ∃ p h, follows_convention short_hash_resume p h := by
  rintro ⟨p, h, hf⟩
  have h1 := regexec_of_convention p h _ hf
  have h2 : regexec short_hash_resume = none := by decide
  rw [h2] at h1
  exact Option.noConfusion h1

/-- C18 as stated fails: the storage filename `Foo.bar.ab12cd34ef56ab7.resume` does not
follow the convention (fifteen characters in the hash part), yet for a record named
`Foo.bar` the checker returns normally, because the name occurs in the filename. -/
theorem c18_counterexample :
    (¬ ∃ p h, follows_convention short_hash_resume p h) ∧
      check_correct_files_pointed (initial_state foo_bar_top) short_hash_resume =
        Outcome.returned (initial_state foo_bar_top) :=
  ⟨short_hash_not_convention, by decide⟩

/-- C18 as amended: for a storage filename that does not follow the convention, the
checker calls `exit (EXIT_FAILURE)` when the name of the record does not occur in the
filename, and returns normally when it does; in both cases the record and the
repaired count are as they were. -/
theorem c18_malformed_filename_on_mismatch (st : State) (f n : CStr)
    (hname : st.top.name = some n) (hbad : ¬ ∃ p h, follows_convention f p h) :
    (¬ n <:+: f → check_correct_files_pointed st f = Outcome.exit_failure st) ∧
      (n <:+: f → check_correct_files_pointed st f = Outcome.returned st) := by
  refine ⟨fun hsub => ?_, fun hsub => check_correct_files_pointed_consistent st f n hname hsub⟩
  have hnone : regexec f = none := by
    cases hr : regexec f with
    | none => rfl
    | some start =>
      obtain ⟨h, hh⟩ := regexec_some f start hr
      exact absurd ⟨_, h, hh⟩ hbad
  have hcheck := check_correct_files_pointed_mismatch st f n hname hsub
  rw [hnone] at hcheck
  exact hcheck

/-- The example of C18 as amended: the name `Wrong` does not occur in the malformed
filename, the checker exits. -/
theorem c18_malformed_filename_on_mismatch_witness :
    check_correct_files_pointed (initial_state wrong_top) short_hash_resume =
      Outcome.exit_failure (initial_state wrong_top) :=
  (c18_malformed_filename_on_mismatch (initial_state wrong_top) short_hash_resume
    "Wrong".toList rfl short_hash_not_convention).1 (by decide)

/-! ## A record without a name, and the path after the name check -/

/-- C19. Missing name: for a record with a non-empty destination and no name,
`get_uploaded_files_path` calls `exit (EXIT_FAILURE)` with the record as it was, no
path is produced, and the session and the process end there, in failure. -/
theorem c19_missing_name_fatal (env : Env) (st : State) (d f : CStr) (mc : Bool)
    (full_path : Option CStr)
    (hd : st.top.destination = some d) (hne : d ≠ []) (hn : st.top.name = none) :
    get_uploaded_files_path st full_path = Outcome.exit_failure st ∧
      repair_resume_file env st f mc = Outcome.exit_failure st ∧
      main env st.top f mc none = ProcessResult.EXIT_FAILURE (initial_state st.top) := by
  have hget : ∀ (s : State) (fp : Option CStr), s.top = st.top →
      get_uploaded_files_path s fp = Outcome.exit_failure s := by
    intro s fp hs
    unfold get_uploaded_files_path
    cases d with
    | nil => exact absurd rfl hne
    | cons c cs => simp [hs, hd, hn]
  refine ⟨hget st full_path rfl, ?_, ?_⟩
  · simp [repair_resume_file, repair_resolve, hget st none rfl, Outcome.bind]
  · simp [main, repair_resume_file, repair_resolve, hget (initial_state st.top) none rfl,
      Outcome.bind]

/-- The example of C19: destination `/data`, no name. -/
theorem c19_missing_name_fatal_witness :
    main example_env no_name_top foo_bar_resume true none =
      ProcessResult.EXIT_FAILURE (initial_state no_name_top) :=
  (c19_missing_name_fatal example_env (initial_state no_name_top) "/data".toList
    foo_bar_resume true none rfl (by decide) rfl).2.2

/-- C21. The name checker is idempotent: when `check_correct_files_pointed` infers a
name (the name of the record does not occur in the storage filename and the function
returns), the new name is a prefix, hence a substring, of the storage filename, and a
second application with the same filename returns the state it is given: no field
changes and the repaired count is not incremented. -/
theorem c21_name_checker_idempotent (st st1 : State) (f n : CStr)
    (hname : st.top.name = some n) (hsub : ¬ n <:+: f)
    (h : check_correct_files_pointed st f = Outcome.returned st1) :
    ∃ p, st1 =
        { st with
          top := { st.top with name := some p }
          nb_repaired_inconsistencies := st.nb_repaired_inconsistencies + 1 } ∧
      p <+: f ∧ p <:+: f ∧
      check_correct_files_pointed st1 f = Outcome.returned st1 := by
  rw [check_correct_files_pointed_mismatch st f n hname hsub] at h
  cases hr : regexec f with
  | none => simp [hr] at h
  | some start =>
    simp only [hr, Outcome.returned.injEq] at h
    have hpre : f.take start <+: f := List.take_prefix _ _
    refine ⟨f.take start, h.symm, hpre, hpre.isInfix, ?_⟩
    exact check_correct_files_pointed_consistent st1 f (f.take start) (by rw [← h])
      hpre.isInfix

/-- The example of C21: after `Wrong` was replaced by `Foo.bar`, the checker finds the
record consistent. -/
theorem c21_name_checker_idempotent_witness :
    ∃ p, ({ top := wrong_top_renamed, total_size := 0, nb_repaired_inconsistencies := 1 } :
          State) =
        { initial_state wrong_top with
          top := { wrong_top with name := some p }
          nb_repaired_inconsistencies := 0 + 1 } ∧
      p <+: foo_bar_resume ∧ p <:+: foo_bar_resume ∧
      check_correct_files_pointed
          { top := wrong_top_renamed, total_size := 0, nb_repaired_inconsistencies := 1 }
          foo_bar_resume =
        Outcome.returned
          { top := wrong_top_renamed, total_size := 0, nb_repaired_inconsistencies := 1 } :=
  c21_name_checker_idempotent (initial_state wrong_top)
    { top := wrong_top_renamed, total_size := 0, nb_repaired_inconsistencies := 1 }
    foo_bar_resume "Wrong".toList rfl (by decide) (by decide)

/-- C22. The substring test accepts names that are not the content name: for a storage
filename `f` that follows the convention with content name `p`, every name `n` that
occurs in `f` makes `check_correct_files_pointed` return the state as it was (no
repair), whether or not `n = p`, although the pattern designates `p` as the content
name. -/
theorem c22_substring_accepts_other_names (st : State) (f p h n : CStr)
    (hf : follows_convention f p h) (hname : st.top.name = some n) (hsub : n <:+: f) :
    check_correct_files_pointed st f = Outcome.returned st ∧
      (regexec f).map (fun start => f.take start) = some p := by
  refine ⟨check_correct_files_pointed_consistent st f n hname hsub, ?_⟩
  rw [regexec_of_convention p h f hf]
  obtain ⟨-, -, rfl⟩ := hf
  simp [List.append_assoc]

/-- The examples of C22: for the storage filename `Foo.bar.ab12cd34ef56ab78.resume`
(content name `Foo.bar`) the names `resume`, the empty name and the hash fragment
`cd34` are all accepted without repair. -/
theorem c22_substring_accepts_other_names_witness :
    (check_correct_files_pointed (initial_state { wrong_top with name := some "resume".toList })
          foo_bar_resume =
        Outcome.returned (initial_state { wrong_top with name := some "resume".toList }) ∧
      "resume".toList ≠ "Foo.bar".toList) ∧
    (check_correct_files_pointed (initial_state { wrong_top with name := some [] })
          foo_bar_resume =
        Outcome.returned (initial_state { wrong_top with name := some [] }) ∧
      ([] : CStr) ≠ "Foo.bar".toList) ∧
    (check_correct_files_pointed (initial_state { wrong_top with name := some "cd34".toList })
          foo_bar_resume =
        Outcome.returned (initial_state { wrong_top with name := some "cd34".toList }) ∧
      "cd34".toList ≠ "Foo.bar".toList) :=
  have hf : follows_convention foo_bar_resume "Foo.bar".toList "ab12cd34ef56ab78".toList :=
    ⟨by decide, by decide, by decide⟩
  ⟨⟨(c22_substring_accepts_other_names
        (initial_state { wrong_top with name := some "resume".toList }) foo_bar_resume
        "Foo.bar".toList "ab12cd34ef56ab78".toList "resume".toList hf rfl (by decide)).1,
      by decide⟩,
    ⟨(c22_substring_accepts_other_names
        (initial_state { wrong_top with name := some [] }) foo_bar_resume
        "Foo.bar".toList "ab12cd34ef56ab78".toList [] hf rfl (by decide)).1,
      by decide⟩,
    ⟨(c22_substring_accepts_other_names
        (initial_state { wrong_top with name := some "cd34".toList }) foo_bar_resume
        "Foo.bar".toList "ab12cd34ef56ab78".toList "cd34".toList hf rfl (by decide)).1,
      by decide⟩⟩

/-! ## The aggregate size -/

theorem foldl_total_size_mod (l : List Stat) :
    ∀ t : Nat,
      ((l.foldl (fun t sb => (((t : Int) + sb.st_size) % (2 : Int) ^ 64).toNat) t : Nat) : Int)
          % (2 : Int) ^ 64 =
        ((t : Int) + (l.map Stat.st_size).sum) % (2 : Int) ^ 64 := by
  induction l with
  | nil => intro t; simp
  | cons sb l ih =>
    intro t
    have hpos : (0 : Int) ≤ ((t : Int) + sb.st_size) % (2 : Int) ^ 64 :=
      Int.emod_nonneg _ (by norm_num)
    simp only [List.foldl_cons, List.map_cons, List.sum_cons]
    rw [ih, Int.toNat_of_nonneg hpos, Int.emod_add_emod, Int.add_assoc]

theorem foldl_total_size_lt (l : List Stat) :
    ∀ t : Nat, (t : Int) < (2 : Int) ^ 64 →
      ((l.foldl (fun t sb => (((t : Int) + sb.st_size) % (2 : Int) ^ 64).toNat) t : Nat) : Int)
        < (2 : Int) ^ 64 := by
  induction l with
  | nil => intro t ht; simpa using ht
  | cons sb l ih =>
    intro t _
    simp only [List.foldl_cons]
    apply ih
    have hpos : (0 : Int) ≤ ((t : Int) + sb.st_size) % (2 : Int) ^ 64 :=
      Int.emod_nonneg _ (by norm_num)
    rw [Int.toNat_of_nonneg hpos]
    exact Int.emod_lt_of_pos _ (by norm_num)

/-- The total after `ftw` with `sum_sizes`, started at 0: the sum of `st_size` over
every visited entry, as a `uint64_t`. -/
theorem ftw_total_size (env : Env) (st : State) (p : CStr) (h0 : st.total_size = 0) :
    ((ftw env st p).1.total_size : Int) =
      ((env.ftw_walk p).1.map Stat.st_size).sum % (2 : Int) ^ 64 := by
  rw [ftw_state]
  simp only [h0]
  have h1 := foldl_total_size_mod (env.ftw_walk p).1 0
  have h2 := foldl_total_size_lt (env.ftw_walk p).1 0 (by norm_num)
  rw [Int.emod_eq_of_lt (Int.ofNat_nonneg _) h2] at h1
  simpa using h1

theorem spec_aggregate_size_all_regular (l : List Stat)
    (hreg : ∀ sb ∈ l, sb.st_mode = FileType.S_IFREG) :
    spec_aggregate_size l = (l.map Stat.st_size).sum := by
  unfold spec_aggregate_size
  rw [List.filter_eq_self.mpr]
  intro sb hsb
  simp [hreg sb hsb]

/-- C23 as stated fails on a directory: `ftw` hands the directory itself to
`sum_sizes`, so for a directory of size 4096 that holds one regular file of 1000 bytes
the total is 5096, while the regular files reachable under the path sum to 1000. -/
theorem c23_counterexample :
    check_uploaded_files dir_env (initial_state zero_date_top) (some "/data/Foo.bar".toList) =
        Outcome.returned
          { top := zero_date_top, total_size := 5096, nb_repaired_inconsistencies := 0 } ∧
      spec_aggregate_size (dir_env.ftw_walk "/data/Foo.bar".toList).1 = 1000 ∧
      ((5096 : Nat) : Int) ≠ spec_aggregate_size (dir_env.ftw_walk "/data/Foo.bar".toList).1 := by
  refine ⟨?_, ?_, ?_⟩ <;> decide

/-- C23 as amended: when `check_uploaded_files` returns on a path, starting from total
0, the total is the sum (as a `uint64_t`) of `st_size` over every entry that `ftw`
visits, directories included; it is the sum over the regular files when every visited
entry is a regular file and the sum fits, and it is `N` when the path is a single
regular file of size `N`. -/
theorem c23_aggregate_size (env : Env) (st st2 : State) (p : CStr)
    (h0 : st.total_size = 0)
    (h : check_uploaded_files env st (some p) = Outcome.returned st2) :
    (st2.total_size : Int) =
        ((env.ftw_walk p).1.map Stat.st_size).sum % (2 : Int) ^ 64 ∧
      ((∀ sb ∈ (env.ftw_walk p).1, sb.st_mode = FileType.S_IFREG) →
        0 ≤ spec_aggregate_size (env.ftw_walk p).1 →
        spec_aggregate_size (env.ftw_walk p).1 < (2 : Int) ^ 64 →
        (st2.total_size : Int) = spec_aggregate_size (env.ftw_walk p).1) ∧
      (∀ sb, (env.ftw_walk p).1 = [sb] → sb.st_mode = FileType.S_IFREG →
        0 ≤ sb.st_size → sb.st_size < (2 : Int) ^ 64 →
        (st2.total_size : Int) = sb.st_size) := by
  obtain ⟨q, hq, hst2, -⟩ := check_uploaded_files_returned env st st2 (some p) h
  obtain rfl := Option.some.inj hq
  have htot : (st2.total_size : Int) =
      ((env.ftw_walk p).1.map Stat.st_size).sum % (2 : Int) ^ 64 := by
    rw [hst2]
    exact ftw_total_size env st p h0
  refine ⟨htot, ?_, ?_⟩
  · intro hreg hnn hlt
    rw [htot, ← spec_aggregate_size_all_regular _ hreg]
    exact Int.emod_eq_of_lt hnn hlt
  · intro sb hsb _ hnn hlt
    rw [htot, hsb]
    simp only [List.map_cons, List.map_nil, List.sum_cons, List.sum_nil, Int.add_zero]
    exact Int.emod_eq_of_lt hnn hlt

/-- The example of C23 as amended: `/data/Foo.bar` is a single regular file of 1000
bytes, and the total is 1000. -/
theorem c23_aggregate_size_witness :
    check_uploaded_files example_env (initial_state wrong_top_renamed)
        (some "/data/Foo.bar".toList) =
      Outcome.returned
        { top := wrong_top_renamed, total_size := 1000, nb_repaired_inconsistencies := 0 } ∧
    ((State.total_size
        { top := wrong_top_renamed, total_size := 1000, nb_repaired_inconsistencies := 0 } :
          Nat) : Int) =
      Stat.st_size { st_mode := FileType.S_IFREG, st_size := 1000, st_mtime := 1500000000 } :=
  have hrun : check_uploaded_files example_env (initial_state wrong_top_renamed)
      (some "/data/Foo.bar".toList) =
      Outcome.returned
        { top := wrong_top_renamed, total_size := 1000, nb_repaired_inconsistencies := 0 } := by
    decide
  ⟨hrun, (c23_aggregate_size example_env (initial_state wrong_top_renamed)
    { top := wrong_top_renamed, total_size := 1000, nb_repaired_inconsistencies := 0 }
    "/data/Foo.bar".toList rfl hrun).2.2
    { st_mode := FileType.S_IFREG, st_size := 1000, st_mtime := 1500000000 }
    (by decide) rfl (by decide) (by decide)⟩

end TransmissionCheck
